import Mathlib

/-!
Verification of the signed-document subsystem of the `vibe2025` repository
(`src/vibe2025/signed_docs/`): canonical JSON serialization of documents
(pydantic `model_dump_json`), RSA-PSS signing and bare verification
(`processor.py`, class `DocumentProcessor`), the trusted-key registry and
registry-backed verification (`service.py`, class `SignedDocumentsService`),
and the artifact store (`save_document_signature_pair` /
`load_document_signature_pair`).

Modelling conventions:
* Python `str` is Lean `String`; byte strings are `List Nat` with entries
  below 256.
* Functions that can raise Python exceptions return `Except PyErr`; the
  `try/except` wrappers in the source are modelled by matching on that
  result.
* The `cryptography` library (an external dependency) is modelled as an
  ideal signature scheme: a key pair is identified by a natural number
  `kid`, and an RSA-PSS signature over a message is a byte string embedding
  the key id, the message bytes and the (probabilistic) salt.  The claims
  under verification are protocol-level: none depends on the computational
  hardness of RSA, only on which checks the repository code performs and in
  which order.
* `pydantic` serialization (`model_dump_json`) is implemented concretely:
  compact JSON in field-declaration order, strings escaped as serde_json
  does, UUIDs in hyphenated lowercase hex, datetimes in ISO-8601 form.
* Ambient effects (`datetime.now()`, the PSS salt, the filesystem) are
  explicit parameters.
-/

namespace Vibe2025

/-- Python exception kinds that the modelled code can raise. -/
inductive PyErr where
  | valueError (msg : String)
  | invalidSignature
  | typeError (msg : String)
  | keyError
  | validationError (msg : String)
  deriving DecidableEq, Repr

/-! ## Digits and hex encoding -/

/-- Lowercase hex digit for `n < 16` (for `n < 10` this is the decimal
digit character). -/
def hexDigit (n : Nat) : Char :=
  if n < 10 then Char.ofNat (48 + n) else Char.ofNat (87 + n)

/-- Value of a hex digit character; accepts both cases, as Python's
`bytes.fromhex` and `int()` do. -/
def hexVal (c : Char) : Option Nat :=
  if 48 ≤ c.toNat ∧ c.toNat ≤ 57 then some (c.toNat - 48)
  else if 97 ≤ c.toNat ∧ c.toNat ≤ 102 then some (c.toNat - 87)
  else if 65 ≤ c.toNat ∧ c.toNat ≤ 70 then some (c.toNat - 55)
  else none

theorem hexVal_hexDigit : ∀ n < 16, hexVal (hexDigit n) = some n := by decide

theorem hexDigit_ne_newline : ∀ n < 16, hexDigit n ≠ Char.ofNat 10 := by decide

theorem hexDigit_toNat_lt : ∀ n < 10, 48 ≤ (hexDigit n).toNat ∧ (hexDigit n).toNat ≤ 57 := by
  decide

/-! ## Byte strings -/

/-- Little-endian base-256 digits of `n`, with explicit fuel (the fuel
`n` itself always suffices). -/
def natBytesAux : Nat → Nat → List Nat
  | 0, _ => []
  | fuel + 1, n => if n = 0 then [] else n % 256 :: natBytesAux fuel (n / 256)

/-- Byte encoding of a natural number, little-endian base 256. -/
def natBytes (n : Nat) : List Nat := natBytesAux n n

theorem natBytesAux_lt (fuel n : Nat) : ∀ b ∈ natBytesAux fuel n, b < 256 := by
  induction fuel generalizing n with
  | zero => intro b hb; simp [natBytesAux] at hb
  | succ fuel ih =>
    intro b hb
    by_cases h : n = 0
    · simp [natBytesAux, h] at hb
    · simp only [natBytesAux, if_neg h, List.mem_cons] at hb
      rcases hb with hb | hb
      · omega
      · exact ih _ b hb

theorem natBytes_lt (n : Nat) : ∀ b ∈ natBytes n, b < 256 :=
  natBytesAux_lt n n

/-- Fixed three-byte little-endian encoding of a character's code point
(code points are below `2^21`, so three bytes suffice). -/
def charBytes (c : Char) : List Nat :=
  [c.toNat % 256, c.toNat / 256 % 256, c.toNat / 65536 % 256]

/-- Byte encoding of a character list (the UTF-32-like encoding used by the
ideal signature scheme; injective, three bytes per character). -/
def msgBytes : List Char → List Nat
  | [] => []
  | c :: rest => charBytes c ++ msgBytes rest

theorem charBytes_lt (c : Char) : ∀ b ∈ charBytes c, b < 256 := by
  intro b hb
  simp only [charBytes, List.mem_cons, List.mem_singleton] at hb
  rcases hb with h | h | h | h <;> first | (subst h; omega) | simp at h

theorem msgBytes_lt (l : List Char) : ∀ b ∈ msgBytes l, b < 256 := by
  induction l with
  | nil => intro b hb; simp [msgBytes] at hb
  | cons c rest ih =>
    intro b hb
    simp only [msgBytes, List.mem_append] at hb
    rcases hb with h | h
    · exact charBytes_lt c b h
    · exact ih b h

/-- Hex rendering of a byte string, two lowercase hex digits per byte,
modelling Python's `bytes.hex()`. -/
def bytesToHexChars : List Nat → List Char
  | [] => []
  | b :: rest => hexDigit (b / 16) :: hexDigit (b % 16) :: bytesToHexChars rest

/-- `bytes.hex()` as a `String`. -/
def bytesToHex (bs : List Nat) : String := String.mk (bytesToHexChars bs)

/-- Parse a hex string into bytes, modelling `bytes.fromhex`: the character
count must be even and every character a hex digit, otherwise Python raises
`ValueError`. -/
def fromHexChars : List Char → Option (List Nat)
  | [] => some []
  | [_] => none
  | c1 :: c2 :: rest =>
    match hexVal c1, hexVal c2, fromHexChars rest with
    | some a, some b, some bs => some ((a * 16 + b) :: bs)
    | _, _, _ => none

/-- `bytes.fromhex` on a Python `str`, raising `ValueError` on malformed
input. -/
def fromHexE (s : String) : Except PyErr (List Nat) :=
  match fromHexChars s.data with
  | some bs => Except.ok bs
  | none => Except.error (PyErr.valueError "non-hexadecimal number found in fromhex() arg")

theorem fromHexChars_bytesToHexChars (bs : List Nat) (h : ∀ b ∈ bs, b < 256) :
    fromHexChars (bytesToHexChars bs) = some bs := by
  induction bs with
  | nil => rfl
  | cons b rest ih =>
    have hb : b < 256 := h b (List.mem_cons_self b rest)
    have h1 : hexVal (hexDigit (b / 16)) = some (b / 16) :=
      hexVal_hexDigit _ (by omega)
    have h2 : hexVal (hexDigit (b % 16)) = some (b % 16) :=
      hexVal_hexDigit _ (by omega)
    have h3 := ih (fun x hx => h x (List.mem_cons_of_mem b hx))
    simp only [bytesToHexChars, fromHexChars, h1, h2, h3]
    have : b / 16 * 16 + b % 16 = b := by omega
    rw [this]

theorem fromHexE_bytesToHex (bs : List Nat) (h : ∀ b ∈ bs, b < 256) :
    fromHexE (bytesToHex bs) = Except.ok bs := by
  simp [fromHexE, bytesToHex, fromHexChars_bytesToHexChars bs h]

/-! ## Decimal representation (Python `repr` of `int`) -/

/-- Big-endian decimal digit characters of `n`, empty for `0`, with explicit
fuel (fuel `n` always suffices since `n / 10 < n` for positive `n`). -/
def natDigitsAux : Nat → Nat → List Char
  | 0, _ => []
  | fuel + 1, n => if n = 0 then [] else natDigitsAux fuel (n / 10) ++ [hexDigit (n % 10)]

/-- Decimal rendering of a natural number, as Python renders nonnegative
`int` values. -/
def natRepr (n : Nat) : List Char :=
  if n = 0 then [Char.ofNat 48] else natDigitsAux n n

/-- Left-to-right decimal accumulator parse; `none` on a non-decimal
character. -/
def charsToNatAcc : Nat → List Char → Option Nat
  | acc, [] => some acc
  | acc, c :: rest =>
    match hexVal c with
    | some v => if v < 10 then charsToNatAcc (acc * 10 + v) rest else none
    | none => none

/-- Parse a nonempty all-decimal character list as a natural number. -/
def charsToNat (l : List Char) : Option Nat :=
  match l with
  | [] => none
  | _ :: _ => charsToNatAcc 0 l

theorem charsToNatAcc_natDigitsAux (fuel : Nat) :
    ∀ n acc r, n ≤ fuel →
      charsToNatAcc acc (natDigitsAux fuel n ++ r) =
        charsToNatAcc (acc * 10 ^ (natDigitsAux fuel n).length + n) r := by
  induction fuel with
  | zero =>
    intro n acc r hn
    have : n = 0 := by omega
    subst this
    simp [natDigitsAux]
  | succ fuel ih =>
    intro n acc r hn
    by_cases h : n = 0
    · subst h; simp [natDigitsAux]
    · have hle : n / 10 ≤ fuel := by omega
      have hv : hexVal (hexDigit (n % 10)) = some (n % 10) :=
        hexVal_hexDigit _ (by omega)
      simp only [natDigitsAux, if_neg h, List.append_assoc, List.cons_append,
        List.nil_append]
      rw [ih (n / 10) acc (hexDigit (n % 10) :: r) hle]
      simp only [charsToNatAcc, hv, if_pos (Nat.mod_lt n (by omega) : n % 10 < 10),
        List.length_append, List.length_singleton]
      congr 1
      have hmod : (acc * 10 ^ (natDigitsAux fuel (n / 10)).length + n / 10) * 10 + n % 10 =
          acc * (10 ^ (natDigitsAux fuel (n / 10)).length * 10) + (n / 10 * 10 + n % 10) := by
        ring
      rw [hmod, pow_succ]
      omega

theorem charsToNat_natRepr (n : Nat) : charsToNat (natRepr n) = some n := by
  by_cases h : n = 0
  · subst h; decide
  · have hne : natDigitsAux n n ≠ [] := by
      cases n with
      | zero => exact absurd rfl h
      | succ m => simp [natDigitsAux]
    simp only [natRepr, if_neg h]
    rcases List.exists_cons_of_ne_nil hne with ⟨c, t, hct⟩
    have hacc := charsToNatAcc_natDigitsAux n n 0 [] (le_refl n)
    rw [List.append_nil] at hacc
    rw [hct]
    simp only [charsToNat]
    rw [← hct, hacc]
    norm_num
    rfl

theorem natRepr_injective {m n : Nat} (h : natRepr m = natRepr n) : m = n := by
  have hm := charsToNat_natRepr m
  have hn := charsToNat_natRepr n
  rw [h, hn] at hm
  injection hm with h2
  exact h2.symm

theorem natDigitsAux_digits (fuel n : Nat) :
    ∀ c ∈ natDigitsAux fuel n, 48 ≤ c.toNat ∧ c.toNat ≤ 57 := by
  induction fuel generalizing n with
  | zero => intro c hc; simp [natDigitsAux] at hc
  | succ fuel ih =>
    intro c hc
    by_cases h : n = 0
    · simp [natDigitsAux, h] at hc
    · simp only [natDigitsAux, if_neg h, List.mem_append, List.mem_singleton] at hc
      rcases hc with hc | hc
      · exact ih _ c hc
      · subst hc; exact hexDigit_toNat_lt _ (Nat.mod_lt n (by omega))

theorem natRepr_digits (n : Nat) : ∀ c ∈ natRepr n, 48 ≤ c.toNat ∧ c.toNat ≤ 57 := by
  intro c hc
  by_cases h : n = 0
  · subst h
    have h0 : natRepr 0 = [Char.ofNat 48] := rfl
    rw [h0, List.mem_singleton] at hc
    subst hc; decide
  · simp only [natRepr, if_neg h] at hc
    exact natDigitsAux_digits n n c hc

theorem natRepr_ne_nil (n : Nat) : natRepr n ≠ [] := by
  by_cases h : n = 0
  · subst h; simp [natRepr]
  · simp only [natRepr, if_neg h]
    cases n with
    | zero => exact absurd rfl h
    | succ m => simp [natDigitsAux]

/-- Python decimal rendering of an `int`, sign included. -/
def intRepr (i : Int) : List Char :=
  if i < 0 then Char.ofNat 45 :: natRepr (-i).toNat else natRepr i.toNat

theorem intRepr_injective {i j : Int} (h : intRepr i = intRepr j) : i = j := by
  have hhead : ∀ k : Nat, ∀ c ∈ natRepr k, c ≠ Char.ofNat 45 := by
    intro k c hc hcontra
    have := natRepr_digits k c hc
    rw [hcontra] at this
    revert this; decide
  unfold intRepr at h
  by_cases hi : i < 0 <;> by_cases hj : j < 0
  · simp only [if_pos hi, if_pos hj, List.cons.injEq] at h
    have := natRepr_injective h.2
    omega
  · simp only [if_pos hi, if_neg hj] at h
    rcases List.exists_cons_of_ne_nil (natRepr_ne_nil j.toNat) with ⟨c, t, hct⟩
    rw [hct] at h
    have hc : c ∈ natRepr j.toNat := by rw [hct]; exact List.mem_cons_self _ _
    exact absurd (List.cons.injEq _ _ _ _ ▸ h).1.symm (hhead _ c hc)
  · simp only [if_neg hi, if_pos hj] at h
    rcases List.exists_cons_of_ne_nil (natRepr_ne_nil i.toNat) with ⟨c, t, hct⟩
    rw [hct] at h
    have hc : c ∈ natRepr i.toNat := by rw [hct]; exact List.mem_cons_self _ _
    exact absurd (List.cons.injEq _ _ _ _ ▸ h).1 (hhead _ c hc)
  · simp only [if_neg hi, if_neg hj] at h
    have := natRepr_injective h
    omega

/-! ## Fixed-width base-`b` encoding (UUID hex fields, ISO-8601 components) -/

/-- Big-endian fixed-width base-`b` digit characters: `k` digits of `x`. -/
def toBaseBE (b : Nat) : Nat → Nat → List Char
  | 0, _ => []
  | k + 1, x => hexDigit (x / b ^ k) :: toBaseBE b k (x % b ^ k)

/-- Parse exactly `k` base-`b` digits, folding into an accumulator;
`none` on a non-digit or premature end of input. -/
def parseBaseAcc (b : Nat) : Nat → Nat → List Char → Option (Nat × List Char)
  | 0, acc, s => some (acc, s)
  | _ + 1, _, [] => none
  | k + 1, acc, c :: s =>
    match hexVal c with
    | some v => if v < b then parseBaseAcc b k (acc * b + v) s else none
    | none => none

theorem toBaseBE_length (b k x : Nat) : (toBaseBE b k x).length = k := by
  induction k generalizing x with
  | zero => rfl
  | succ k ih => simp [toBaseBE, ih]

theorem parseBaseAcc_toBaseBE {b : Nat} (hb : 2 ≤ b) (hb16 : b ≤ 16) (k : Nat) :
    ∀ x acc r, x < b ^ k →
      parseBaseAcc b k acc (toBaseBE b k x ++ r) = some (acc * b ^ k + x, r) := by
  induction k with
  | zero =>
    intro x acc r hx
    have : x = 0 := by simpa using hx
    subst this
    simp [toBaseBE, parseBaseAcc]
  | succ k ih =>
    intro x acc r hx
    have hd : x / b ^ k < b := by
      rw [Nat.div_lt_iff_lt_mul (Nat.pos_pow_of_pos k (by omega))]
      rw [pow_succ] at hx
      calc x < b ^ k * b := hx
        _ = b * b ^ k := Nat.mul_comm _ _
    have hv : hexVal (hexDigit (x / b ^ k)) = some (x / b ^ k) :=
      hexVal_hexDigit _ (by omega)
    have hmod : x % b ^ k < b ^ k := Nat.mod_lt x (Nat.pos_pow_of_pos k (by omega))
    have hsplit : toBaseBE b (k + 1) x ++ r =
        hexDigit (x / b ^ k) :: (toBaseBE b k (x % b ^ k) ++ r) := by
      simp [toBaseBE]
    rw [hsplit]
    have hstep : parseBaseAcc b (k + 1) acc
        (hexDigit (x / b ^ k) :: (toBaseBE b k (x % b ^ k) ++ r)) =
        parseBaseAcc b k (acc * b + x / b ^ k) (toBaseBE b k (x % b ^ k) ++ r) := by
      simp only [parseBaseAcc, hv, if_pos hd]
    rw [hstep, ih (x % b ^ k) (acc * b + x / b ^ k) r hmod]
    congr 2
    have heq : (acc * b + x / b ^ k) * b ^ k + x % b ^ k =
        acc * (b * b ^ k) + (x / b ^ k * b ^ k + x % b ^ k) := by ring
    rw [heq, pow_succ]
    have hdm : x / b ^ k * b ^ k + x % b ^ k = x := by
      rw [Nat.mul_comm]
      exact Nat.div_add_mod x (b ^ k)
    rw [hdm]
    ring

theorem toBaseBE_injective {b : Nat} (hb : 2 ≤ b) (hb16 : b ≤ 16) (k : Nat)
    {x y : Nat} (hx : x < b ^ k) (hy : y < b ^ k)
    (h : toBaseBE b k x = toBaseBE b k y) : x = y := by
  have h1 := parseBaseAcc_toBaseBE hb hb16 k x 0 [] hx
  have h2 := parseBaseAcc_toBaseBE hb hb16 k y 0 [] hy
  rw [h, h2] at h1
  have h3 : y = x := by simpa using h1
  omega

/-! ## JSON string escaping

`model_dump_json` (pydantic v2, serde_json under the hood) escapes `"` and
`\`, uses the two-character shortcuts for backspace, tab, newline, form
feed and carriage return, renders the remaining control characters as
`\u00XX`, and emits every other character verbatim. -/

/-- Escape of a single character in a JSON string literal. -/
def escChar (c : Char) : List Char :=
  if c = Char.ofNat 34 then [Char.ofNat 92, Char.ofNat 34]
  else if c = Char.ofNat 92 then [Char.ofNat 92, Char.ofNat 92]
  else if c.toNat = 8 then [Char.ofNat 92, 'b']
  else if c.toNat = 9 then [Char.ofNat 92, 't']
  else if c.toNat = 10 then [Char.ofNat 92, 'n']
  else if c.toNat = 12 then [Char.ofNat 92, 'f']
  else if c.toNat = 13 then [Char.ofNat 92, 'r']
  else if c.toNat < 32 then
    [Char.ofNat 92, 'u', '0', '0', hexDigit (c.toNat / 16), hexDigit (c.toNat % 16)]
  else [c]

/-- Escape of a whole string body (the part between the quotes). -/
def escList : List Char → List Char
  | [] => []
  | c :: rest => escChar c ++ escList rest

/-- One-step decoder for escaped JSON string bodies: reads one character's
escape off the front, returning the character and the remaining input. -/
def decodeEsc (l : List Char) : Option (Char × List Char) :=
  match l with
  | [] => none
  | c :: rest =>
    if c = Char.ofNat 92 then
      match rest with
      | [] => none
      | e :: r =>
        if e = Char.ofNat 34 then some (Char.ofNat 34, r)
        else if e = Char.ofNat 92 then some (Char.ofNat 92, r)
        else if e = 'b' then some (Char.ofNat 8, r)
        else if e = 't' then some (Char.ofNat 9, r)
        else if e = 'n' then some (Char.ofNat 10, r)
        else if e = 'f' then some (Char.ofNat 12, r)
        else if e = 'r' then some (Char.ofNat 13, r)
        else if e = 'u' then
          match r with
          | z1 :: z2 :: h1 :: h2 :: r2 =>
            if z1 = '0' ∧ z2 = '0' then
              match hexVal h1, hexVal h2 with
              | some a, some b => some (Char.ofNat (a * 16 + b), r2)
              | _, _ => none
            else none
          | _ => none
        else none
    else some (c, rest)

theorem decodeEsc_escChar (c : Char) (r : List Char) :
    decodeEsc (escChar c ++ r) = some (c, r) := by
  unfold escChar
  by_cases h34 : c = Char.ofNat 34
  · subst h34; rfl
  by_cases h92 : c = Char.ofNat 92
  · subst h92; simp [decodeEsc]
  by_cases h8 : c.toNat = 8
  · have hc : c = Char.ofNat 8 := by
      rw [← Char.ofNat_toNat c, h8]
    simp only [if_neg h34, if_neg h92, if_pos h8, List.cons_append, List.nil_append]
    rw [hc]; rfl
  by_cases h9 : c.toNat = 9
  · have hc : c = Char.ofNat 9 := by rw [← Char.ofNat_toNat c, h9]
    simp only [if_neg h34, if_neg h92, if_neg h8, if_pos h9, List.cons_append,
      List.nil_append]
    rw [hc]; rfl
  by_cases h10 : c.toNat = 10
  · have hc : c = Char.ofNat 10 := by rw [← Char.ofNat_toNat c, h10]
    simp only [if_neg h34, if_neg h92, if_neg h8, if_neg h9, if_pos h10,
      List.cons_append, List.nil_append]
    rw [hc]; rfl
  by_cases h12 : c.toNat = 12
  · have hc : c = Char.ofNat 12 := by rw [← Char.ofNat_toNat c, h12]
    simp only [if_neg h34, if_neg h92, if_neg h8, if_neg h9, if_neg h10, if_pos h12,
      List.cons_append, List.nil_append]
    rw [hc]; rfl
  by_cases h13 : c.toNat = 13
  · have hc : c = Char.ofNat 13 := by rw [← Char.ofNat_toNat c, h13]
    simp only [if_neg h34, if_neg h92, if_neg h8, if_neg h9, if_neg h10, if_neg h12,
      if_pos h13, List.cons_append, List.nil_append]
    rw [hc]; rfl
  by_cases h32 : c.toNat < 32
  · simp only [if_neg h34, if_neg h92, if_neg h8, if_neg h9, if_neg h10, if_neg h12,
      if_neg h13, if_pos h32, List.cons_append, List.nil_append]
    have hv1 : hexVal (hexDigit (c.toNat / 16)) = some (c.toNat / 16) :=
      hexVal_hexDigit _ (by omega)
    have hv2 : hexVal (hexDigit (c.toNat % 16)) = some (c.toNat % 16) :=
      hexVal_hexDigit _ (by omega)
    have hu : ∀ d1 d2 : Char, ∀ r2 : List Char,
        decodeEsc (Char.ofNat 92 :: 'u' :: '0' :: '0' :: d1 :: d2 :: r2) =
          (match hexVal d1, hexVal d2 with
           | some a, some b => some (Char.ofNat (a * 16 + b), r2)
           | _, _ => none) := fun _ _ _ => rfl
    rw [hu, hv1, hv2]
    have harith : c.toNat / 16 * 16 + c.toNat % 16 = c.toNat := by omega
    show some (Char.ofNat (c.toNat / 16 * 16 + c.toNat % 16), r) = some (c, r)
    rw [harith, Char.ofNat_toNat]
  · simp only [if_neg h34, if_neg h92, if_neg h8, if_neg h9, if_neg h10, if_neg h12,
      if_neg h13, if_neg h32, List.cons_append, List.nil_append]
    have : ¬ c = Char.ofNat 92 := h92
    simp [decodeEsc, this]

theorem escChar_append_inj {c1 c2 : Char} {r1 r2 : List Char}
    (h : escChar c1 ++ r1 = escChar c2 ++ r2) : c1 = c2 ∧ r1 = r2 := by
  have h1 := decodeEsc_escChar c1 r1
  have h2 := decodeEsc_escChar c2 r2
  rw [h, h2] at h1
  injection h1 with h3
  exact ⟨(Prod.mk.injEq _ _ _ _ ▸ h3).1.symm, (Prod.mk.injEq _ _ _ _ ▸ h3).2.symm⟩

/-- An escaped character never starts with an unescaped quote, so an
unescaped quote terminates the string body unambiguously. -/
theorem escChar_append_ne_quote (c : Char) (x y : List Char) :
    escChar c ++ x ≠ Char.ofNat 34 :: y := by
  intro h
  have h1 := decodeEsc_escChar c x
  rw [h] at h1
  have h2 : decodeEsc (Char.ofNat 34 :: y) = some (Char.ofNat 34, y) := rfl
  rw [h2] at h1
  injection h1 with h3
  have hc : c = Char.ofNat 34 := ((Prod.mk.injEq _ _ _ _).mp h3).1.symm
  subst hc
  have he : escChar (Char.ofNat 34) = [Char.ofNat 92, Char.ofNat 34] := rfl
  rw [he] at h
  simp only [List.cons_append, List.cons.injEq] at h
  have := h.1
  revert this; decide

/-- Unique decodability of escaped string bodies terminated by an unescaped
quote: the body and everything after the quote are both determined. -/
theorem escList_quote_inj :
    ∀ s1 s2 r1 r2 : List Char,
      escList s1 ++ Char.ofNat 34 :: r1 = escList s2 ++ Char.ofNat 34 :: r2 →
      s1 = s2 ∧ r1 = r2 := by
  intro s1
  induction s1 with
  | nil =>
    intro s2 r1 r2 h
    cases s2 with
    | nil =>
      simp only [escList, List.nil_append, List.cons.injEq] at h
      exact ⟨rfl, h.2⟩
    | cons c t =>
      exfalso
      simp only [escList, List.nil_append, List.append_assoc] at h
      exact escChar_append_ne_quote c _ _ h.symm
  | cons c t ih =>
    intro s2 r1 r2 h
    cases s2 with
    | nil =>
      exfalso
      simp only [escList, List.nil_append, List.append_assoc] at h
      exact escChar_append_ne_quote c _ _ h
    | cons c2 t2 =>
      simp only [escList, List.append_assoc] at h
      have hinj := escChar_append_inj h
      have ht := ih t2 r1 r2 hinj.2
      exact ⟨by rw [hinj.1, ht.1], ht.2⟩

/-! ## Data model (`model.py`)

`Paragraph`, `Document` and `Signature` are pydantic models; `Document.id`
is a `UUID`, `created_at`/`signed_at` are naive `datetime` values.  UUIDs
are modelled by their 128-bit integer value, datetimes by their seven
components; the Python types' range invariants (`0 ≤ value < 2^128`,
calendar-field ranges) are carried as separate `Valid` predicates since
Lean structures of plain naturals can also hold out-of-range values that
no Python object ever holds. -/

/-- A `uuid.UUID` value: a 128-bit integer. -/
structure UUID where
  val : Nat
  deriving DecidableEq, Repr

/-- Python's `UUID` invariant. -/
def UUID.Valid (u : UUID) : Prop := u.val < 2 ^ 128

instance (u : UUID) : Decidable u.Valid := by unfold UUID.Valid; infer_instance

/-- A naive `datetime.datetime` value, by components. -/
structure Datetime where
  year : Nat
  month : Nat
  day : Nat
  hour : Nat
  minute : Nat
  second : Nat
  microsecond : Nat
  deriving DecidableEq, Repr

/-- Python's `datetime` range invariant (day-of-month bounds are relaxed
to `1..31` independent of the month; only the direction used here — every
Python datetime satisfies this — matters). -/
def Datetime.Valid (t : Datetime) : Prop :=
  1 ≤ t.year ∧ t.year ≤ 9999 ∧ 1 ≤ t.month ∧ t.month ≤ 12 ∧ 1 ≤ t.day ∧ t.day ≤ 31 ∧
    t.hour ≤ 23 ∧ t.minute ≤ 59 ∧ t.second ≤ 59 ∧ t.microsecond ≤ 999999

instance (t : Datetime) : Decidable t.Valid := by unfold Datetime.Valid; infer_instance

/-- `Paragraph` from `model.py`. -/
structure Paragraph where
  fixed_text : String
  placeholder : String
  text : String
  deriving DecidableEq, Repr

/-- `Document` from `model.py` (field order is declaration order, which
fixes the canonical JSON field order). -/
structure Document where
  id : UUID
  parent_document_id : Option UUID := none
  author_id : Int
  addressee_id : Int
  created_at : Datetime
  content : List Paragraph
  deriving DecidableEq, Repr

/-- The range invariants Python guarantees for every `Document`. -/
def Document.Valid (d : Document) : Prop :=
  d.id.Valid ∧ (∀ u ∈ d.parent_document_id, u.Valid) ∧ d.created_at.Valid

instance (d : Document) : Decidable d.Valid := by
  unfold Document.Valid; infer_instance

/-- `Signature` from `model.py`: the signature artifact. -/
structure Signature where
  document_id : UUID
  json_version : String
  signator_id : Int
  public_key : String
  signature : String
  signed_at : Datetime
  deriving DecidableEq, Repr

/-- The range invariants Python guarantees for every `Signature`. -/
def Signature.Valid (s : Signature) : Prop :=
  s.document_id.Valid ∧ s.signed_at.Valid

instance (s : Signature) : Decidable s.Valid := by
  unfold Signature.Valid; infer_instance

/-! ## Canonical serialization (pydantic `model_dump_json(indent=None)`) -/

/-- Hyphenated lowercase-hex rendering of a UUID value (`str(uuid)`),
8-4-4-4-12 hex digits. -/
def uuidChars (v : Nat) : List Char :=
  toBaseBE 16 8 (v / 16 ^ 24) ++ '-' ::
    (toBaseBE 16 4 (v / 16 ^ 20 % 16 ^ 4) ++ '-' ::
      (toBaseBE 16 4 (v / 16 ^ 16 % 16 ^ 4) ++ '-' ::
        (toBaseBE 16 4 (v / 16 ^ 12 % 16 ^ 4) ++ '-' ::
          toBaseBE 16 12 (v % 16 ^ 12))))

/-- ISO-8601 rendering of a naive datetime as pydantic emits it:
`YYYY-MM-DDTHH:MM:SS`, with `.ffffff` appended only when the microsecond
field is nonzero. -/
def dtChars (t : Datetime) : List Char :=
  toBaseBE 10 4 t.year ++ '-' ::
    (toBaseBE 10 2 t.month ++ '-' ::
      (toBaseBE 10 2 t.day ++ 'T' ::
        (toBaseBE 10 2 t.hour ++ ':' ::
          (toBaseBE 10 2 t.minute ++ ':' ::
            (toBaseBE 10 2 t.second ++
              (if t.microsecond = 0 then []
               else '.' :: toBaseBE 10 6 t.microsecond))))))

/-- JSON rendering of the optional parent id: `null` or a quoted UUID. -/
def parentChars : Option UUID → List Char
  | none => String.data "null"
  | some u => Char.ofNat 34 :: (uuidChars u.val ++ [Char.ofNat 34])

/-- Canonical JSON of one `Paragraph`, fields in declaration order. -/
def paraJson (p : Paragraph) : List Char :=
  String.data "\x7b\"fixed_text\":\"" ++ escList p.fixed_text.data ++
    String.data "\",\"placeholder\":\"" ++ escList p.placeholder.data ++
    String.data "\",\"text\":\"" ++ escList p.text.data ++ String.data "\"\x7d"

/-- Canonical JSON of the paragraph list body (elements joined by commas). -/
def contentChars : List Paragraph → List Char
  | [] => []
  | [p] => paraJson p
  | p :: q :: rest => paraJson p ++ ',' :: contentChars (q :: rest)

/-- Canonical JSON character sequence of a `Document`, exactly as pydantic's
compact `model_dump_json(indent=None)` renders it: declaration-order fields,
no whitespace. -/
def canonChars (d : Document) : List Char :=
  String.data "\x7b\"id\":\"" ++ uuidChars d.id.val ++
    String.data "\",\"parent_document_id\":" ++ parentChars d.parent_document_id ++
    String.data ",\"author_id\":" ++ intRepr d.author_id ++
    String.data ",\"addressee_id\":" ++ intRepr d.addressee_id ++
    String.data ",\"created_at\":\"" ++ dtChars d.created_at ++
    String.data "\",\"content\":[" ++ contentChars d.content ++ String.data "]\x7d"

/-- `DocumentProcessor._document_to_canonical_json` /
`document.model_dump_json(indent=None)`: the canonical payload string. -/
def documentToCanonicalJson (d : Document) : String := String.mk (canonChars d)

/-! ## Parsing UUIDs and datetimes back (pydantic validation) -/

/-- Consume one expected character. -/
def expectChar (c : Char) : List Char → Option (List Char)
  | [] => none
  | x :: r => if x = c then some r else none

theorem expectChar_cons (c : Char) (r : List Char) : expectChar c (c :: r) = some r := by
  simp [expectChar]

/-- Require the unconsumed input to be empty. -/
def requireEnd : List Char → Option Unit
  | [] => some ()
  | _ :: _ => none

/-- Parse a full hyphenated UUID string back to its 128-bit value, as
pydantic's `UUID` validator does. -/
def parseUuidChars (l : List Char) : Option Nat :=
  (parseBaseAcc 16 8 0 l).bind fun s1 =>
  (expectChar '-' s1.2).bind fun r1 =>
  (parseBaseAcc 16 4 s1.1 r1).bind fun s2 =>
  (expectChar '-' s2.2).bind fun r2 =>
  (parseBaseAcc 16 4 s2.1 r2).bind fun s3 =>
  (expectChar '-' s3.2).bind fun r3 =>
  (parseBaseAcc 16 4 s3.1 r3).bind fun s4 =>
  (expectChar '-' s4.2).bind fun r4 =>
  (parseBaseAcc 16 12 s4.1 r4).bind fun s5 =>
  (requireEnd s5.2).bind fun _ =>
  some s5.1

theorem uuid_chain (v j k : Nat) :
    v / 16 ^ (j + k) * 16 ^ k + v / 16 ^ j % 16 ^ k = v / 16 ^ j := by
  have h1 : v / 16 ^ (j + k) = v / 16 ^ j / 16 ^ k := by
    rw [Nat.div_div_eq_div_mul, ← pow_add]
  rw [h1, Nat.mul_comm]
  exact Nat.div_add_mod _ _

theorem parseUuidChars_uuidChars (v : Nat) (hv : v < 2 ^ 128) :
    parseUuidChars (uuidChars v) = some v := by
  have h16 : v < 16 ^ 32 := by
    have : (16 : Nat) ^ 32 = 2 ^ 128 := by norm_num
    omega
  have hb1 : v / 16 ^ 24 < 16 ^ 8 := by
    rw [Nat.div_lt_iff_lt_mul (by norm_num)]
    have : (16 : Nat) ^ 8 * 16 ^ 24 = 16 ^ 32 := by norm_num
    omega
  have hm4a : v / 16 ^ 20 % 16 ^ 4 < 16 ^ 4 := Nat.mod_lt _ (by norm_num)
  have hm4b : v / 16 ^ 16 % 16 ^ 4 < 16 ^ 4 := Nat.mod_lt _ (by norm_num)
  have hm4c : v / 16 ^ 12 % 16 ^ 4 < 16 ^ 4 := Nat.mod_lt _ (by norm_num)
  have hm12 : v % 16 ^ 12 < 16 ^ 12 := Nat.mod_lt _ (by norm_num)
  have hc20 : v / 16 ^ 24 * 16 ^ 4 + v / 16 ^ 20 % 16 ^ 4 = v / 16 ^ 20 := by
    have := uuid_chain v 20 4; norm_num at this; exact this
  have hc16 : v / 16 ^ 20 * 16 ^ 4 + v / 16 ^ 16 % 16 ^ 4 = v / 16 ^ 16 := by
    have := uuid_chain v 16 4; norm_num at this; exact this
  have hc12 : v / 16 ^ 16 * 16 ^ 4 + v / 16 ^ 12 % 16 ^ 4 = v / 16 ^ 12 := by
    have := uuid_chain v 12 4; norm_num at this; exact this
  have hc0 : v / 16 ^ 12 * 16 ^ 12 + v % 16 ^ 12 = v := by
    have := uuid_chain v 0 12; norm_num at this; exact this
  have hP1 : ∀ r, parseBaseAcc 16 8 0 (toBaseBE 16 8 (v / 16 ^ 24) ++ r) =
      some (v / 16 ^ 24, r) := by
    intro r
    have := parseBaseAcc_toBaseBE (by norm_num) (by norm_num) 8 (v / 16 ^ 24) 0 r hb1
    simpa using this
  have hP2 : ∀ r, parseBaseAcc 16 4 (v / 16 ^ 24)
      (toBaseBE 16 4 (v / 16 ^ 20 % 16 ^ 4) ++ r) = some (v / 16 ^ 20, r) := by
    intro r
    rw [parseBaseAcc_toBaseBE (by norm_num) (by norm_num) 4 _ (v / 16 ^ 24) r hm4a, hc20]
  have hP3 : ∀ r, parseBaseAcc 16 4 (v / 16 ^ 20)
      (toBaseBE 16 4 (v / 16 ^ 16 % 16 ^ 4) ++ r) = some (v / 16 ^ 16, r) := by
    intro r
    rw [parseBaseAcc_toBaseBE (by norm_num) (by norm_num) 4 _ (v / 16 ^ 20) r hm4b, hc16]
  have hP4 : ∀ r, parseBaseAcc 16 4 (v / 16 ^ 16)
      (toBaseBE 16 4 (v / 16 ^ 12 % 16 ^ 4) ++ r) = some (v / 16 ^ 12, r) := by
    intro r
    rw [parseBaseAcc_toBaseBE (by norm_num) (by norm_num) 4 _ (v / 16 ^ 16) r hm4c, hc12]
  have hP5 : parseBaseAcc 16 12 (v / 16 ^ 12) (toBaseBE 16 12 (v % 16 ^ 12)) =
      some (v, []) := by
    rw [← List.append_nil (toBaseBE 16 12 (v % 16 ^ 12))]
    rw [parseBaseAcc_toBaseBE (by norm_num) (by norm_num) 12 _ (v / 16 ^ 12) _ hm12, hc0]
  simp only [parseUuidChars, uuidChars, hP1, Option.some_bind, expectChar_cons,
    hP2, hP3, hP4, hP5, requireEnd]

theorem uuidChars_injective {v w : Nat} (hv : v < 2 ^ 128) (hw : w < 2 ^ 128)
    (h : uuidChars v = uuidChars w) : v = w := by
  have h1 := parseUuidChars_uuidChars v hv
  have h2 := parseUuidChars_uuidChars w hw
  rw [h, h2] at h1
  injection h1 with h3
  exact h3.symm

/-- Build a datetime from parsed components, applying the range checks that
pydantic's datetime validator applies. -/
def mkDt (y mo d h mi s us : Nat) : Option Datetime :=
  if 1 ≤ y ∧ y ≤ 9999 ∧ 1 ≤ mo ∧ mo ≤ 12 ∧ 1 ≤ d ∧ d ≤ 31 ∧ h ≤ 23 ∧ mi ≤ 59 ∧
      s ≤ 59 ∧ us ≤ 999999 then
    some ⟨y, mo, d, h, mi, s, us⟩
  else none

/-- Parse the optional `.ffffff` fraction at the end of an ISO-8601
datetime string. -/
def parseUsTail (l : List Char) : Option Nat :=
  match l with
  | [] => some 0
  | c :: r =>
    if c = '.' then
      (parseBaseAcc 10 6 0 r).bind fun s =>
      (requireEnd s.2).bind fun _ =>
      some s.1
    else none

/-- Parse an ISO-8601 datetime string back to its components, as pydantic's
datetime validator does on the strings this system emits. -/
def parseDtChars (l : List Char) : Option Datetime :=
  (parseBaseAcc 10 4 0 l).bind fun s1 =>
  (expectChar '-' s1.2).bind fun r1 =>
  (parseBaseAcc 10 2 0 r1).bind fun s2 =>
  (expectChar '-' s2.2).bind fun r2 =>
  (parseBaseAcc 10 2 0 r2).bind fun s3 =>
  (expectChar 'T' s3.2).bind fun r3 =>
  (parseBaseAcc 10 2 0 r3).bind fun s4 =>
  (expectChar ':' s4.2).bind fun r4 =>
  (parseBaseAcc 10 2 0 r4).bind fun s5 =>
  (expectChar ':' s5.2).bind fun r5 =>
  (parseBaseAcc 10 2 0 r5).bind fun s6 =>
  (parseUsTail s6.2).bind fun us =>
  mkDt s1.1 s2.1 s3.1 s4.1 s5.1 s6.1 us

theorem parseDtChars_dtChars (t : Datetime) (ht : t.Valid) :
    parseDtChars (dtChars t) = some t := by
  obtain ⟨hy1, hy2, hmo1, hmo2, hd1, hd2, hh, hmi, hs, hus⟩ := ht
  have hby : t.year < 10 ^ 4 := by norm_num; omega
  have hbmo : t.month < 10 ^ 2 := by norm_num; omega
  have hbd : t.day < 10 ^ 2 := by norm_num; omega
  have hbh : t.hour < 10 ^ 2 := by norm_num; omega
  have hbmi : t.minute < 10 ^ 2 := by norm_num; omega
  have hbs : t.second < 10 ^ 2 := by norm_num; omega
  have hbus : t.microsecond < 10 ^ 6 := by norm_num; omega
  have hvalid : 1 ≤ t.year ∧ t.year ≤ 9999 ∧ 1 ≤ t.month ∧ t.month ≤ 12 ∧ 1 ≤ t.day ∧
      t.day ≤ 31 ∧ t.hour ≤ 23 ∧ t.minute ≤ 59 ∧ t.second ≤ 59 ∧
      t.microsecond ≤ 999999 := by omega
  have hPy : ∀ r, parseBaseAcc 10 4 0 (toBaseBE 10 4 t.year ++ r) = some (t.year, r) := by
    intro r
    simpa using parseBaseAcc_toBaseBE (by norm_num) (by norm_num) 4 t.year 0 r hby
  have hPmo : ∀ r, parseBaseAcc 10 2 0 (toBaseBE 10 2 t.month ++ r) =
      some (t.month, r) := by
    intro r
    simpa using parseBaseAcc_toBaseBE (by norm_num) (by norm_num) 2 t.month 0 r hbmo
  have hPd : ∀ r, parseBaseAcc 10 2 0 (toBaseBE 10 2 t.day ++ r) = some (t.day, r) := by
    intro r
    simpa using parseBaseAcc_toBaseBE (by norm_num) (by norm_num) 2 t.day 0 r hbd
  have hPh : ∀ r, parseBaseAcc 10 2 0 (toBaseBE 10 2 t.hour ++ r) = some (t.hour, r) := by
    intro r
    simpa using parseBaseAcc_toBaseBE (by norm_num) (by norm_num) 2 t.hour 0 r hbh
  have hPmi : ∀ r, parseBaseAcc 10 2 0 (toBaseBE 10 2 t.minute ++ r) =
      some (t.minute, r) := by
    intro r
    simpa using parseBaseAcc_toBaseBE (by norm_num) (by norm_num) 2 t.minute 0 r hbmi
  have hPs : ∀ r, parseBaseAcc 10 2 0 (toBaseBE 10 2 t.second ++ r) =
      some (t.second, r) := by
    intro r
    simpa using parseBaseAcc_toBaseBE (by norm_num) (by norm_num) 2 t.second 0 r hbs
  have hTail : parseUsTail (if t.microsecond = 0 then []
      else '.' :: toBaseBE 10 6 t.microsecond) = some t.microsecond := by
    by_cases hz : t.microsecond = 0
    · rw [if_pos hz, hz]; rfl
    · rw [if_neg hz]
      have hQ : parseBaseAcc 10 6 0 (toBaseBE 10 6 t.microsecond) =
          some (t.microsecond, []) := by
        rw [← List.append_nil (toBaseBE 10 6 t.microsecond)]
        simpa using
          parseBaseAcc_toBaseBE (by norm_num) (by norm_num) 6 t.microsecond 0 [] hbus
      simp [parseUsTail, hQ, requireEnd]
  have hMk : mkDt t.year t.month t.day t.hour t.minute t.second t.microsecond =
      some t := by
    rw [mkDt, if_pos hvalid]
  simp only [parseDtChars, dtChars, hPy, Option.some_bind, expectChar_cons, hPmo,
    hPd, hPh, hPmi, hPs, hTail, hMk]

theorem dtChars_injective {t1 t2 : Datetime} (h1 : t1.Valid) (h2 : t2.Valid)
    (h : dtChars t1 = dtChars t2) : t1 = t2 := by
  have ha := parseDtChars_dtChars t1 h1
  have hb := parseDtChars_dtChars t2 h2
  rw [h, hb] at ha
  injection ha with h3
  exact h3.symm

/-! ## The `cryptography` library, idealized

Keys are identified by a natural number `kid` (the randomness of
`rsa.generate_private_key` made explicit).  An RSA-PSS signature over a
message embeds the key id, the message bytes and the salt; verification
checks that the signature bytes open under the given key id and message.
Ed25519 keys model "a public key of a different asymmetric scheme": PEM
parsing accepts them, but calling `.verify` on them with RSA-PSS padding
arguments raises `TypeError`, as the Python library does. -/

/-- A parsed public key object. -/
inductive PubKey where
  | rsa (kid : Nat)
  | ed25519 (kid : Nat)
  deriving DecidableEq, Repr

/-- Canonical PEM text of a public key (`public_bytes(...)`). -/
def pemPub : PubKey → String
  | .rsa kid => String.mk (String.data "RSA:" ++ natRepr kid)
  | .ed25519 kid => String.mk (String.data "ED:" ++ natRepr kid)

/-- Drop trailing newline characters, modelling the PEM loader's tolerance
of trailing whitespace: two byte-distinct PEM strings can parse to the same
key object. -/
def stripTrailingNewlines (l : List Char) : List Char :=
  (l.reverse.dropWhile (fun c => c = Char.ofNat 10)).reverse

/-- `serialization.load_pem_public_key`, on the character level: `none`
models a raised `ValueError`. -/
def parsePemChars (l : List Char) : Option PubKey :=
  let t := stripTrailingNewlines l
  let tryRsa :=
    ((((expectChar 'R' t).bind (expectChar 'S')).bind (expectChar 'A')).bind
      (expectChar ':')).bind fun rest => (charsToNat rest).map PubKey.rsa
  let tryEd :=
    (((expectChar 'E' t).bind (expectChar 'D')).bind (expectChar ':')).bind
      fun rest => (charsToNat rest).map PubKey.ed25519
  tryRsa.orElse fun _ => tryEd

/-- `serialization.load_pem_public_key`, with the `ValueError` explicit. -/
def loadPemPublicKeyE (s : String) : Except PyErr PubKey :=
  match parsePemChars s.data with
  | some k => Except.ok k
  | none => Except.error (PyErr.valueError "Could not deserialize key data")

theorem stripTrailingNewlines_append_nonNl (l : List Char) (c : Char)
    (hc : c ≠ Char.ofNat 10) : stripTrailingNewlines (l ++ [c]) = l ++ [c] := by
  unfold stripTrailingNewlines
  rw [List.reverse_append]
  simp only [List.reverse_singleton, List.singleton_append, List.dropWhile_cons]
  rw [if_neg (by simpa using hc)]
  simp

theorem natRepr_split (n : Nat) : ∃ l c, natRepr n = l ++ [c] ∧ c ≠ Char.ofNat 10 := by
  rcases List.eq_nil_or_concat (natRepr n) with h | ⟨l, c, h⟩
  · exact absurd h (natRepr_ne_nil n)
  · rw [List.concat_eq_append] at h
    refine ⟨l, c, h, ?_⟩
    have hc : c ∈ natRepr n := by rw [h]; simp
    have := natRepr_digits n c hc
    intro hcontra
    rw [hcontra] at this
    revert this; decide

theorem parsePemChars_rsa (kid : Nat) :
    parsePemChars (pemPub (PubKey.rsa kid)).data = some (PubKey.rsa kid) := by
  obtain ⟨l, c, hsplit, hc⟩ := natRepr_split kid
  have hdata : (pemPub (PubKey.rsa kid)).data = String.data "RSA:" ++ natRepr kid := rfl
  have hstrip : stripTrailingNewlines (String.data "RSA:" ++ natRepr kid) =
      String.data "RSA:" ++ natRepr kid := by
    rw [hsplit, ← List.append_assoc]
    rw [stripTrailingNewlines_append_nonNl _ _ hc]
  have hshape : String.data "RSA:" ++ natRepr kid =
      'R' :: 'S' :: 'A' :: ':' :: natRepr kid := rfl
  have hstrip2 : stripTrailingNewlines ('R' :: 'S' :: 'A' :: ':' :: natRepr kid) =
      'R' :: 'S' :: 'A' :: ':' :: natRepr kid := by
    rw [← hshape]; exact hstrip
  simp only [parsePemChars, hdata, hshape, hstrip2, expectChar_cons, Option.some_bind]
  rw [charsToNat_natRepr kid]
  rfl

theorem parsePemChars_ed (kid : Nat) :
    parsePemChars (pemPub (PubKey.ed25519 kid)).data = some (PubKey.ed25519 kid) := by
  obtain ⟨l, c, hsplit, hc⟩ := natRepr_split kid
  have hdata : (pemPub (PubKey.ed25519 kid)).data = String.data "ED:" ++ natRepr kid := rfl
  have hstrip : stripTrailingNewlines (String.data "ED:" ++ natRepr kid) =
      String.data "ED:" ++ natRepr kid := by
    rw [hsplit, ← List.append_assoc]
    rw [stripTrailingNewlines_append_nonNl _ _ hc]
  have hshape : String.data "ED:" ++ natRepr kid = 'E' :: 'D' :: ':' :: natRepr kid := rfl
  have hstrip2 : stripTrailingNewlines ('E' :: 'D' :: ':' :: natRepr kid) =
      'E' :: 'D' :: ':' :: natRepr kid := by
    rw [← hshape]; exact hstrip
  have hmiss : expectChar 'R' ('E' :: 'D' :: ':' :: natRepr kid) = none := by
    simp [expectChar]
  simp only [parsePemChars, hdata, hshape, hstrip2, hmiss, Option.none_bind,
    expectChar_cons, Option.some_bind, Option.none_orElse]
  rw [charsToNat_natRepr kid]
  rfl

theorem loadPemPublicKeyE_pem (k : PubKey) :
    loadPemPublicKeyE (pemPub k) = Except.ok k := by
  cases k with
  | rsa kid => simp [loadPemPublicKeyE, parsePemChars_rsa]
  | ed25519 kid => simp [loadPemPublicKeyE, parsePemChars_ed]

/-- The bytes of an ideal RSA-PSS signature that bind the signing key and
the message (the salt varies freely, making signing probabilistic). -/
def sigHeader (kid : Nat) (msg : List Char) : List Nat :=
  natBytes kid ++ msgBytes msg

/-- `private_key.sign(message, PSS(...), SHA256())`, idealized: embeds the
key id, the message and the salt. -/
def rsaSign (kid : Nat) (msg : List Char) (salt : Nat) : List Nat :=
  sigHeader kid msg ++ natBytes salt

/-- Ideal RSA-PSS acceptance test: the signature opens under this key id
and message. -/
def rsaSigMatches (kid : Nat) (sig : List Nat) (msg : List Char) : Bool :=
  sig.take (sigHeader kid msg).length == sigHeader kid msg

/-- `public_key.verify(signature, message, PSS(...), SHA256())`: raises
`InvalidSignature` on a bad signature and `TypeError` when the key object
is not an RSA key (RSA padding arguments passed to another scheme). -/
def rsaVerifyE (pub : PubKey) (sig : List Nat) (msg : List Char) : Except PyErr Unit :=
  match pub with
  | .rsa kid =>
    if rsaSigMatches kid sig msg then Except.ok ()
    else Except.error PyErr.invalidSignature
  | .ed25519 _ =>
    Except.error (PyErr.typeError "verify() takes 3 positional arguments but 5 were given")

theorem rsaSign_lt (kid : Nat) (msg : List Char) (salt : Nat) :
    ∀ b ∈ rsaSign kid msg salt, b < 256 := by
  intro b hb
  simp only [rsaSign, sigHeader, List.append_assoc, List.mem_append] at hb
  rcases hb with h | h | h
  · exact natBytes_lt kid b h
  · exact msgBytes_lt msg b h
  · exact natBytes_lt salt b h

theorem rsaSigMatches_rsaSign (kid : Nat) (msg : List Char) (salt : Nat) :
    rsaSigMatches kid (rsaSign kid msg salt) msg = true := by
  unfold rsaSigMatches rsaSign
  rw [List.take_left]
  simp

/-! ## `DocumentProcessor` (`processor.py`) -/

/-- The processor's state: an optionally loaded private key. -/
structure DocumentProcessor where
  private_key : Option Nat
  deriving DecidableEq, Repr

/-- `DocumentProcessor.__init__(private_key_path)`: loads the key only when
a path was given and the file exists; a missing file is silently skipped.
The filesystem is the explicit parameter `fs` (`none` = no file at that
path, `some kid` = a readable private-key file for key pair `kid`). -/
def DocumentProcessor.init (private_key_path : Option String)
    (fs : String → Option Nat) : DocumentProcessor :=
  match private_key_path with
  | none => { private_key := none }
  | some path =>
    match fs path with
    | none => { private_key := none }
    | some kid => { private_key := some kid }

/-- `DocumentProcessor.generate_keys` (the generator's randomness is the
explicit fresh key id). -/
def DocumentProcessor.generate_keys (kid : Nat) : DocumentProcessor :=
  { private_key := some kid }

/-- `DocumentProcessor.get_public_key_pem`: raises `ValueError` when no
private key is loaded. -/
def DocumentProcessor.get_public_key_pem (p : DocumentProcessor) :
    Except PyErr String :=
  match p.private_key with
  | none => Except.error (PyErr.valueError "No private key available")
  | some kid => Except.ok (pemPub (PubKey.rsa kid))

/-- `DocumentProcessor.sign_document`: raises `ValueError` when no private
key is loaded, otherwise canonicalizes, signs with RSA-PSS and assembles
the artifact.  The PSS salt and `datetime.now()` are explicit. -/
def DocumentProcessor.sign_document (p : DocumentProcessor) (document : Document)
    (signator_id : Int) (salt : Nat) (now : Datetime) : Except PyErr Signature :=
  match p.private_key with
  | none => Except.error (PyErr.valueError "No private key loaded")
  | some kid =>
    let json_version := documentToCanonicalJson document
    let message := json_version.data
    let signature_bytes := rsaSign kid message salt
    Except.ok
      { document_id := document.id
        json_version := json_version
        signator_id := signator_id
        public_key := pemPub (PubKey.rsa kid)
        signature := bytesToHex signature_bytes
        signed_at := now }

/-- Sequencing inside a `try` block: a raised exception propagates past
the remaining statements (this is `Except.bind`, named locally so proofs
can unfold it step by step). -/
def tryBind {α β : Type} (e : Except PyErr α) (f : α → Except PyErr β) :
    Except PyErr β :=
  match e with
  | Except.error err => Except.error err
  | Except.ok v => f v

/-- The body of `DocumentProcessor.verify_signature`'s `try` block, checks
in source order: document-id match, public-key parse, canonical-JSON
match, hex decode, cryptographic verification. -/
def verifySignatureE (document : Document) (signature : Signature) :
    Except PyErr Bool :=
  if document.id ≠ signature.document_id then Except.ok false
  else
    tryBind (loadPemPublicKeyE signature.public_key) fun public_key =>
      if documentToCanonicalJson document ≠ signature.json_version then Except.ok false
      else
        tryBind (fromHexE signature.signature) fun signature_bytes =>
          tryBind (rsaVerifyE public_key signature_bytes signature.json_version.data)
            fun _ => Except.ok true

/-- `DocumentProcessor.verify_signature`: the `try/except` wrapper turns
every raised exception into `False`. -/
def verify_signature (document : Document) (signature : Signature) : Bool :=
  match verifySignatureE document signature with
  | Except.ok b => b
  | Except.error _ => false

/-! ## `SignedDocumentsService` (`service.py`) -/

/-- Python `dict[int, str]` membership. -/
def dictContains : List (Int × String) → Int → Bool
  | [], _ => false
  | p :: t, k => (p.1 == k) || dictContains t k

/-- Python `dict[int, str]` lookup (`.get`). -/
def dictGet : List (Int × String) → Int → Option String
  | [], _ => none
  | p :: t, k => if p.1 == k then some p.2 else dictGet t k

/-- Overwrite the value stored under an existing key, in place. -/
def replaceKey : List (Int × String) → Int → String → List (Int × String)
  | [], _, _ => []
  | p :: t, k, v => if p.1 == k then (k, v) :: replaceKey t k v else p :: replaceKey t k v

/-- Python `dict[int, str]` assignment: overwrite in place, append if new
(insertion-order semantics). -/
def dictSet (l : List (Int × String)) (k : Int) (v : String) : List (Int × String) :=
  if dictContains l k then replaceKey l k v else l ++ [(k, v)]

/-- Python `del d[k]`. -/
def dictRemove : List (Int × String) → Int → List (Int × String)
  | [], _ => []
  | p :: t, k => if p.1 == k then dictRemove t k else p :: dictRemove t k

/-- The trusted-key registry service. -/
structure SignedDocumentsService where
  trusted_keys : List (Int × String)
  deriving DecidableEq, Repr

/-- `SignedDocumentsService.__init__`: empty registry. -/
def SignedDocumentsService.init : SignedDocumentsService := { trusted_keys := [] }

/-- `SignedDocumentsService.add_trusted_key`: validates that the PEM parses
as a public key, wrapping any parse failure in a `ValueError` that is
raised to the caller; on success inserts (overwriting) the mapping. -/
def SignedDocumentsService.add_trusted_key (svc : SignedDocumentsService)
    (signer_id : Int) (public_key_pem : String) :
    Except PyErr SignedDocumentsService :=
  match parsePemChars public_key_pem.data with
  | none => Except.error (PyErr.valueError "Invalid public key format")
  | some _ =>
    Except.ok { trusted_keys := dictSet svc.trusted_keys signer_id public_key_pem }

/-- `SignedDocumentsService.remove_trusted_key`: returns whether the id was
present, plus the updated registry. -/
def SignedDocumentsService.remove_trusted_key (svc : SignedDocumentsService)
    (signer_id : Int) : Bool × SignedDocumentsService :=
  if dictContains svc.trusted_keys signer_id then
    (true, { trusted_keys := dictRemove svc.trusted_keys signer_id })
  else (false, svc)

/-- `SignedDocumentsService.get_trusted_key`. -/
def SignedDocumentsService.get_trusted_key (svc : SignedDocumentsService)
    (signer_id : Int) : Option String :=
  dictGet svc.trusted_keys signer_id

/-- Python `d[k]` on a `dict`: raises `KeyError` when the key is absent. -/
def getItem (o : Option String) : Except PyErr String :=
  match o with
  | none => Except.error PyErr.keyError
  | some v => Except.ok v

/-- The body of `SignedDocumentsService.verify_document_signature`'s `try`
block, checks in source order: signer trusted, document-id match, artifact
key byte-identical to the registered key, key parse, canonical-JSON match,
hex decode, cryptographic verification. -/
def verifyDocumentSignatureE (svc : SignedDocumentsService) (document : Document)
    (signature : Signature) : Except PyErr Bool :=
  if ¬ dictContains svc.trusted_keys signature.signator_id then Except.ok false
  else if document.id ≠ signature.document_id then Except.ok false
  else
    tryBind (getItem (dictGet svc.trusted_keys signature.signator_id))
      fun trusted_key_pem =>
      if signature.public_key ≠ trusted_key_pem then Except.ok false
      else
        tryBind (loadPemPublicKeyE trusted_key_pem) fun public_key =>
          if documentToCanonicalJson document ≠ signature.json_version then
            Except.ok false
          else
            tryBind (fromHexE signature.signature) fun signature_bytes =>
              tryBind (rsaVerifyE public_key signature_bytes
                  signature.json_version.data) fun _ => Except.ok true

/-- `SignedDocumentsService.verify_document_signature`: the `try/except`
wrapper turns every raised exception into `False`. -/
def SignedDocumentsService.verify_document_signature (svc : SignedDocumentsService)
    (document : Document) (signature : Signature) : Bool :=
  match verifyDocumentSignatureE svc document signature with
  | Except.ok b => b
  | Except.error _ => false

/-! ## Artifact store (`save_document_signature_pair` /
`load_document_signature_pair`)

`save` builds `{"document": ..., "signature": ...}` from the two models'
JSON dumps and writes `json.dumps` of it; `load` reads the file back with
`json.loads` and validates `Document(**data["document"])` and
`Signature(**data["signature"])`.  Since `json.loads(json.dumps(x)) = x`
for JSON trees (the `json` module's contract), the file is modelled by its
JSON tree. -/

/-- A JSON value tree as produced by `json.loads`. -/
inductive Json where
  | null
  | str (s : String)
  | num (n : Int)
  | arr (items : List Json)
  | obj (fields : List (String × Json))

/-- Dict lookup inside a JSON object. -/
def objGet (fields : List (String × Json)) (k : String) : Option Json :=
  (fields.find? (fun p => p.1 == k)).map (fun p => p.2)

/-- `str(uuid)`. -/
def uuidString (u : UUID) : String := String.mk (uuidChars u.val)

/-- `datetime.isoformat()`-style rendering as pydantic emits it. -/
def dtString (t : Datetime) : String := String.mk (dtChars t)

/-- JSON dump of one `Paragraph`. -/
def paraToTree (p : Paragraph) : Json :=
  Json.obj [("fixed_text", Json.str p.fixed_text),
            ("placeholder", Json.str p.placeholder),
            ("text", Json.str p.text)]

/-- JSON dump of a `Document` (`json.loads(document.model_dump_json())`). -/
def documentToTree (d : Document) : Json :=
  Json.obj [("id", Json.str (uuidString d.id)),
            ("parent_document_id",
              match d.parent_document_id with
              | none => Json.null
              | some u => Json.str (uuidString u)),
            ("author_id", Json.num d.author_id),
            ("addressee_id", Json.num d.addressee_id),
            ("created_at", Json.str (dtString d.created_at)),
            ("content", Json.arr (d.content.map paraToTree))]

/-- JSON dump of a `Signature` (`json.loads(signature.model_dump_json())`). -/
def signatureToTree (s : Signature) : Json :=
  Json.obj [("document_id", Json.str (uuidString s.document_id)),
            ("json_version", Json.str s.json_version),
            ("signator_id", Json.num s.signator_id),
            ("public_key", Json.str s.public_key),
            ("signature", Json.str s.signature),
            ("signed_at", Json.str (dtString s.signed_at))]

/-- `DocumentProcessor.save_document_signature_pair`: the JSON tree written
to the destination file. -/
def save_document_signature_pair (document : Document) (signature : Signature) :
    Json :=
  Json.obj [("document", documentToTree document),
            ("signature", signatureToTree signature)]

/-- Pydantic validation of a required string field. -/
def parseStrField (fields : List (String × Json)) (k : String) :
    Except PyErr String :=
  match objGet fields k with
  | some (Json.str s) => Except.ok s
  | _ => Except.error (PyErr.validationError k)

/-- Pydantic validation of a required integer field. -/
def parseNumField (fields : List (String × Json)) (k : String) :
    Except PyErr Int :=
  match objGet fields k with
  | some (Json.num n) => Except.ok n
  | _ => Except.error (PyErr.validationError k)

/-- Pydantic validation of a required UUID field given as a string. -/
def parseUuidField (fields : List (String × Json)) (k : String) :
    Except PyErr UUID :=
  match objGet fields k with
  | some (Json.str s) =>
    match parseUuidChars s.data with
    | some v => Except.ok ⟨v⟩
    | none => Except.error (PyErr.validationError k)
  | _ => Except.error (PyErr.validationError k)

/-- Pydantic validation of an optional UUID field (`UUID | None`). -/
def parseOptUuidField (fields : List (String × Json)) (k : String) :
    Except PyErr (Option UUID) :=
  match objGet fields k with
  | some Json.null => Except.ok none
  | some (Json.str s) =>
    match parseUuidChars s.data with
    | some v => Except.ok (some ⟨v⟩)
    | none => Except.error (PyErr.validationError k)
  | _ => Except.error (PyErr.validationError k)

/-- Pydantic validation of a required datetime field given as an ISO
string. -/
def parseDtField (fields : List (String × Json)) (k : String) :
    Except PyErr Datetime :=
  match objGet fields k with
  | some (Json.str s) =>
    match parseDtChars s.data with
    | some t => Except.ok t
    | none => Except.error (PyErr.validationError k)
  | _ => Except.error (PyErr.validationError k)

/-- Pydantic validation of one `Paragraph` value. -/
def paraFromTree (j : Json) : Except PyErr Paragraph :=
  match j with
  | Json.obj fields => do
    let ft ← parseStrField fields "fixed_text"
    let ph ← parseStrField fields "placeholder"
    let tx ← parseStrField fields "text"
    Except.ok { fixed_text := ft, placeholder := ph, text := tx }
  | _ => Except.error (PyErr.validationError "paragraph")

/-- Pydantic validation of a paragraph list. -/
def parasFromTree : List Json → Except PyErr (List Paragraph)
  | [] => Except.ok []
  | j :: rest => do
    let p ← paraFromTree j
    let ps ← parasFromTree rest
    Except.ok (p :: ps)

/-- `Document(**data)`: pydantic validation of a document tree. -/
def documentFromTree (j : Json) : Except PyErr Document :=
  match j with
  | Json.obj fields => do
    let i ← parseUuidField fields "id"
    let parent ← parseOptUuidField fields "parent_document_id"
    let author ← parseNumField fields "author_id"
    let addressee ← parseNumField fields "addressee_id"
    let created ← parseDtField fields "created_at"
    let content ←
      match objGet fields "content" with
      | some (Json.arr items) => parasFromTree items
      | _ => Except.error (PyErr.validationError "content")
    Except.ok { id := i, parent_document_id := parent, author_id := author,
                addressee_id := addressee, created_at := created,
                content := content }
  | _ => Except.error (PyErr.validationError "document")

/-- `Signature(**data)`: pydantic validation of a signature tree. -/
def signatureFromTree (j : Json) : Except PyErr Signature :=
  match j with
  | Json.obj fields => do
    let did ← parseUuidField fields "document_id"
    let jv ← parseStrField fields "json_version"
    let sid ← parseNumField fields "signator_id"
    let pk ← parseStrField fields "public_key"
    let sg ← parseStrField fields "signature"
    let sat ← parseDtField fields "signed_at"
    Except.ok { document_id := did, json_version := jv, signator_id := sid,
                public_key := pk, signature := sg, signed_at := sat }
  | _ => Except.error (PyErr.validationError "signature")

/-- `DocumentProcessor.load_document_signature_pair` applied to a stored
tree: looks up the two top-level fields (a missing one raises `KeyError`)
and validates both models. -/
def load_document_signature_pair (j : Json) :
    Except PyErr (Document × Signature) :=
  match j with
  | Json.obj fields => do
    let dj ←
      match objGet fields "document" with
      | some x => Except.ok x
      | none => Except.error PyErr.keyError
    let sj ←
      match objGet fields "signature" with
      | some x => Except.ok x
      | none => Except.error PyErr.keyError
    let d ← documentFromTree dj
    let s ← signatureFromTree sj
    Except.ok (d, s)
  | _ => Except.error (PyErr.validationError "pair")

theorem paraFromTree_paraToTree (p : Paragraph) :
    paraFromTree (paraToTree p) = Except.ok p := rfl

theorem parasFromTree_map (l : List Paragraph) :
    parasFromTree (l.map paraToTree) = Except.ok l := by
  induction l with
  | nil => rfl
  | cons p rest ih =>
    simp only [List.map_cons, parasFromTree, paraFromTree_paraToTree, ih]
    rfl

theorem documentFromTree_documentToTree (d : Document) (hd : d.Valid) :
    documentFromTree (documentToTree d) = Except.ok d := by
  obtain ⟨i, par, au, ad, cr, ct⟩ := d
  obtain ⟨hi, hpar, hcr⟩ := hd
  have hu : parseUuidChars (uuidString i).data = some i.val :=
    parseUuidChars_uuidChars i.val hi
  have ht : parseDtChars (dtString cr).data = some cr :=
    parseDtChars_dtChars cr hcr
  have hc : parasFromTree (ct.map paraToTree) = Except.ok ct := parasFromTree_map ct
  cases par with
  | none =>
    simp [documentFromTree, documentToTree, parseUuidField, parseOptUuidField,
      parseNumField, parseDtField, objGet, hu, ht, hc]
    rfl
  | some u =>
    have hv : u.Valid := hpar u (by simp)
    have hu2 : parseUuidChars (uuidString u).data = some u.val :=
      parseUuidChars_uuidChars u.val hv
    simp [documentFromTree, documentToTree, parseUuidField, parseOptUuidField,
      parseNumField, parseDtField, objGet, hu, hu2, ht, hc]
    rfl

theorem signatureFromTree_signatureToTree (s : Signature) (hs : s.Valid) :
    signatureFromTree (signatureToTree s) = Except.ok s := by
  obtain ⟨did, jv, sid, pk, sg, sat⟩ := s
  obtain ⟨h1, h2⟩ := hs
  have hu : parseUuidChars (uuidString did).data = some did.val :=
    parseUuidChars_uuidChars did.val h1
  have ht : parseDtChars (dtString sat).data = some sat :=
    parseDtChars_dtChars sat h2
  simp [signatureFromTree, signatureToTree, parseUuidField, parseStrField,
    parseNumField, parseDtField, objGet, hu, ht]
  rfl

/-- Loading a saved (document, signature) pair restores both values
exactly, for any values Python can actually hold. -/
theorem load_save_pair (d : Document) (s : Signature) (hd : d.Valid)
    (hs : s.Valid) :
    load_document_signature_pair (save_document_signature_pair d s) =
      Except.ok (d, s) := by
  have hstep : load_document_signature_pair (save_document_signature_pair d s) =
      (do
        let d2 ← documentFromTree (documentToTree d)
        let s2 ← signatureFromTree (signatureToTree s)
        Except.ok (d2, s2)) := rfl
  rw [hstep, documentFromTree_documentToTree d hd,
    signatureFromTree_signatureToTree s hs]
  rfl

/-! ## Injectivity of the canonical form under single-field changes -/

theorem stringDataInj {s t : String} (h : s.data = t.data) : s = t := by
  cases s; cases t
  exact congrArg String.mk h

theorem paraJson_injective {p1 p2 : Paragraph} (h : paraJson p1 = paraJson p2) :
    p1 = p2 := by
  have hrw : ∀ p : Paragraph, paraJson p =
      String.data "\x7b\"fixed_text\":\"" ++ (escList p.fixed_text.data ++
        (Char.ofNat 34 :: (String.data ",\"placeholder\":\"" ++
          (escList p.placeholder.data ++
            (Char.ofNat 34 :: (String.data ",\"text\":\"" ++
              (escList p.text.data ++
                Char.ofNat 34 :: String.data "\x7d"))))))) := by
    intro p
    unfold paraJson
    simp only [List.append_assoc]
    rfl
  rw [hrw, hrw] at h
  have h1 := List.append_cancel_left h
  have h2 := escList_quote_inj _ _ _ _ h1
  have hf : p1.fixed_text = p2.fixed_text := stringDataInj h2.1
  have h3 := List.append_cancel_left h2.2
  have h4 := escList_quote_inj _ _ _ _ h3
  have hg : p1.placeholder = p2.placeholder := stringDataInj h4.1
  have h5 := List.append_cancel_left h4.2
  have h6 := escList_quote_inj _ _ _ _ h5
  have ht : p1.text = p2.text := stringDataInj h6.1
  cases p1 with
  | mk a b c =>
    cases p2 with
    | mk x y z =>
      have e1 : a = x := hf
      have e2 : b = y := hg
      have e3 : c = z := ht
      rw [e1, e2, e3]

/-- The part of the content body contributed by the paragraphs before the
focused one. -/
def contentA : List Paragraph → List Char
  | [] => []
  | q :: rest => paraJson q ++ ',' :: contentA rest

/-- The part of the content body contributed by the paragraphs after the
focused one. -/
def contentB : List Paragraph → List Char
  | [] => []
  | q :: rest => ',' :: contentChars (q :: rest)

theorem contentChars_decomp :
    ∀ (pre : List Paragraph) (p : Paragraph) (post : List Paragraph),
      contentChars (pre ++ p :: post) = contentA pre ++ (paraJson p ++ contentB post) := by
  intro pre
  induction pre with
  | nil =>
    intro p post
    cases post with
    | nil => simp [contentChars, contentA, contentB]
    | cons q rest => simp [contentChars, contentA, contentB]
  | cons q pre' ih =>
    intro p post
    have hne : pre' ++ p :: post ≠ [] := by simp
    rcases hL : pre' ++ p :: post with _ | ⟨x, xs⟩
    · exact absurd hL hne
    · have hstep : contentChars (q :: (pre' ++ p :: post)) =
          paraJson q ++ ',' :: contentChars (pre' ++ p :: post) := by
        rw [hL]; rfl
      calc contentChars ((q :: pre') ++ p :: post)
          = paraJson q ++ ',' :: contentChars (pre' ++ p :: post) := hstep
        _ = paraJson q ++ ',' :: (contentA pre' ++ (paraJson p ++ contentB post)) := by
            rw [ih p post]
        _ = contentA (q :: pre') ++ (paraJson p ++ contentB post) := by
            simp [contentA]

theorem parentChars_injective {x y : Option UUID} (hx : ∀ u ∈ x, u.Valid)
    (hy : ∀ u ∈ y, u.Valid) (h : parentChars x = parentChars y) : x = y := by
  cases x with
  | none =>
    cases y with
    | none => rfl
    | some u =>
      exfalso
      have : ('n' : Char) = Char.ofNat 34 := by
        have := congrArg (fun l => l.head?) h
        simp [parentChars] at this
      revert this; decide
  | some u =>
    cases y with
    | none =>
      exfalso
      have : (Char.ofNat 34 : Char) = 'n' := by
        have := congrArg (fun l => l.head?) h
        simp [parentChars] at this
      revert this; decide
    | some w =>
      have h' : Char.ofNat 34 :: (uuidChars u.val ++ [Char.ofNat 34]) =
          Char.ofNat 34 :: (uuidChars w.val ++ [Char.ofNat 34]) := h
      injection h' with _ h2'
      have h3 := List.append_cancel_right h2'
      have hval := uuidChars_injective (hx u (by simp)) (hy w (by simp)) h3
      cases u with
      | mk a =>
        cases w with
        | mk b =>
          have e : a = b := hval
          rw [e]

/-! ## Behaviour of the two verification paths -/

/-- A freshly signed artifact verifies: the exact artifact record
`sign_document` assembles passes every check of `verify_signature`. -/
theorem verify_ok (d : Document) (kid salt : Nat) (sid : Int) (now : Datetime) :
    verify_signature d
      { document_id := d.id
        json_version := documentToCanonicalJson d
        signator_id := sid
        public_key := pemPub (PubKey.rsa kid)
        signature := bytesToHex (rsaSign kid (documentToCanonicalJson d).data salt)
        signed_at := now } = true := by
  have hpem := loadPemPublicKeyE_pem (PubKey.rsa kid)
  have hhex := fromHexE_bytesToHex _ (rsaSign_lt kid (documentToCanonicalJson d).data salt)
  have hsig := rsaSigMatches_rsaSign kid (documentToCanonicalJson d).data salt
  simp [verify_signature, verifySignatureE, tryBind, hpem, hhex, rsaVerifyE, hsig]

/-- A document-id mismatch alone forces bare verification to `False`. -/
theorem verify_false_of_id_ne (d : Document) (s : Signature)
    (h : d.id ≠ s.document_id) : verify_signature d s = false := by
  unfold verify_signature verifySignatureE
  rw [if_pos h]

/-- A canonical-JSON mismatch forces bare verification to `False`,
whatever the other fields hold. -/
theorem verify_false_of_json_ne (d : Document) (s : Signature)
    (h : documentToCanonicalJson d ≠ s.json_version) :
    verify_signature d s = false := by
  unfold verify_signature verifySignatureE
  by_cases h1 : d.id ≠ s.document_id
  · rw [if_pos h1]
  · rw [if_neg h1]
    cases hpem : loadPemPublicKeyE s.public_key with
    | error e => rfl
    | ok k => simp [tryBind, h]

/-- The collapsed wrapper is `true` exactly when the `try` body returns
`True`. -/
theorem verify_signature_true_iff (d : Document) (s : Signature) :
    verify_signature d s = true ↔ verifySignatureE d s = Except.ok true := by
  unfold verify_signature
  cases h : verifySignatureE d s with
  | error e => simp
  | ok b => cases b <;> simp

/-- The collapsed registry-backed wrapper is `true` exactly when its `try`
body returns `True`. -/
theorem verify_trusted_true_iff (svc : SignedDocumentsService) (d : Document)
    (s : Signature) :
    svc.verify_document_signature d s = true ↔
      verifyDocumentSignatureE svc d s = Except.ok true := by
  unfold SignedDocumentsService.verify_document_signature
  cases h : verifyDocumentSignatureE svc d s with
  | error e => simp
  | ok b => cases b <;> simp

theorem canonChars_ne_nil (d : Document) : canonChars d ≠ [] := by
  intro h
  simp [canonChars] at h

theorem msgBytes_ne_nil {msg : List Char} (h : msg ≠ []) : msgBytes msg ≠ [] := by
  cases msg with
  | nil => exact absurd rfl h
  | cons c rest =>
    simp [msgBytes, charBytes]

theorem rsaSigMatches_nil {kid : Nat} {msg : List Char} (h : msg ≠ []) :
    rsaSigMatches kid [] msg = false := by
  unfold rsaSigMatches
  have hH : sigHeader kid msg ≠ [] := by
    unfold sigHeader
    intro hc
    rcases List.append_eq_nil.mp hc with ⟨_, h2⟩
    exact msgBytes_ne_nil h h2
  simp only [List.take_nil]
  cases hE : sigHeader kid msg with
  | nil => exact absurd hE hH
  | cons b rest => rfl

/-! ## Dictionary lemmas for the trusted-key registry -/

theorem dictGet_dictRemove (l : List (Int × String)) (k : Int) :
    dictGet (dictRemove l k) k = none := by
  induction l with
  | nil => rfl
  | cons p t ih =>
    by_cases hpk : (p.1 == k) = true
    · simp only [dictRemove, if_pos hpk]
      exact ih
    · simp only [dictRemove, if_neg hpk, dictGet]
      exact ih

theorem dictContains_true_iff (l : List (Int × String)) (k : Int) :
    dictContains l k = true ↔ ∃ v, dictGet l k = some v := by
  induction l with
  | nil => simp [dictContains, dictGet]
  | cons p t ih =>
    by_cases hpk : (p.1 == k) = true
    · simp [dictContains, dictGet, hpk]
    · simp only [dictContains, dictGet, hpk, Bool.false_or, if_neg hpk]
      exact ih

theorem dictContains_dictRemove (l : List (Int × String)) (k : Int) :
    dictContains (dictRemove l k) k = false := by
  by_cases h : dictContains (dictRemove l k) k = true
  · rcases (dictContains_true_iff _ _).mp h with ⟨v, hv⟩
    rw [dictGet_dictRemove] at hv
    exact absurd hv (by simp)
  · simpa using h

theorem dictGet_replaceKey_self (l : List (Int × String)) (k : Int) (v : String) :
    dictContains l k = true → dictGet (replaceKey l k v) k = some v := by
  induction l with
  | nil => intro h; simp [dictContains] at h
  | cons p t ih =>
    intro h
    by_cases hpk : (p.1 == k) = true
    · simp only [replaceKey, if_pos hpk, dictGet]
      rw [if_pos (by simp)]
    · simp only [dictContains, hpk, Bool.false_or] at h
      simp only [replaceKey, if_neg hpk, dictGet]
      exact ih h

theorem dictGet_append_single (l : List (Int × String)) (k : Int) (v : String)
    (h : dictContains l k = false) : dictGet (l ++ [(k, v)]) k = some v := by
  induction l with
  | nil =>
    simp only [List.nil_append, dictGet]
    rw [if_pos (by simp)]
  | cons p t ih =>
    simp only [dictContains, Bool.or_eq_false_iff] at h
    simp only [List.cons_append, dictGet]
    rw [if_neg (by simp [h.1])]
    exact ih h.2

theorem dictGet_dictSet_self (l : List (Int × String)) (k : Int) (v : String) :
    dictGet (dictSet l k v) k = some v := by
  unfold dictSet
  by_cases hc : dictContains l k = true
  · rw [if_pos hc]
    exact dictGet_replaceKey_self l k v hc
  · rw [if_neg hc]
    exact dictGet_append_single l k v (by simpa using hc)

theorem dictGet_replaceKey_other (l : List (Int × String)) (k k2 : Int) (v : String)
    (h : k2 ≠ k) : dictGet (replaceKey l k v) k2 = dictGet l k2 := by
  induction l with
  | nil => rfl
  | cons p t ih =>
    by_cases hpk : (p.1 == k) = true
    · have hp1 : p.1 = k := by simpa using hpk
      simp only [replaceKey, if_pos hpk, dictGet]
      rw [if_neg (by simp [Ne.symm h]), if_neg (by simp [hp1]; exact Ne.symm h)]
      exact ih
    · simp only [replaceKey, if_neg hpk, dictGet]
      exact if_congr Iff.rfl rfl ih

theorem dictGet_dictSet_other (l : List (Int × String)) (k k2 : Int) (v : String)
    (h : k2 ≠ k) : dictGet (dictSet l k v) k2 = dictGet l k2 := by
  unfold dictSet
  by_cases hc : dictContains l k = true
  · rw [if_pos hc]
    exact dictGet_replaceKey_other l k k2 v h
  · rw [if_neg hc]
    induction l with
    | nil =>
      simp only [List.nil_append, dictGet]
      rw [if_neg (by simp [Ne.symm h])]
    | cons p t ih =>
      simp only [List.cons_append, dictGet]
      have hct : dictContains t k = true → dictContains (p :: t) k = true := by
        intro hx
        simp [dictContains, hx]
      exact if_congr Iff.rfl rfl (ih (fun hx => hc (hct hx)))

/-- Registry invariant: at most one entry per signer id. -/
def KeysNodup (l : List (Int × String)) : Prop := (l.map Prod.fst).Nodup

instance (l : List (Int × String)) : Decidable (KeysNodup l) := by
  unfold KeysNodup; infer_instance

theorem dictContains_iff_mem_keys (l : List (Int × String)) (k : Int) :
    dictContains l k = true ↔ k ∈ l.map Prod.fst := by
  induction l with
  | nil => simp [dictContains]
  | cons p t ih =>
    by_cases hpk : (p.1 == k) = true
    · have : p.1 = k := by simpa using hpk
      simp [dictContains, hpk, this]
    · have : ¬ p.1 = k := by simpa using hpk
      simp only [dictContains, hpk, Bool.false_or, List.map_cons, List.mem_cons]
      rw [ih]
      constructor
      · exact Or.inr
      · rintro (hx | hx)
        · exact absurd hx.symm this
        · exact hx

theorem keys_replaceKey (l : List (Int × String)) (k : Int) (v : String) :
    (replaceKey l k v).map Prod.fst = l.map Prod.fst := by
  induction l with
  | nil => rfl
  | cons p t ih =>
    by_cases hpk : (p.1 == k) = true
    · simp only [replaceKey, if_pos hpk, List.map_cons, ih]
      have hp1 : p.1 = k := by simpa using hpk
      rw [hp1]
    · simp only [replaceKey, if_neg hpk, List.map_cons, ih]

theorem keysNodup_dictSet (l : List (Int × String)) (k : Int) (v : String)
    (h : KeysNodup l) : KeysNodup (dictSet l k v) := by
  unfold dictSet
  by_cases hc : dictContains l k = true
  · rw [if_pos hc]
    unfold KeysNodup at h ⊢
    rw [keys_replaceKey]
    exact h
  · rw [if_neg hc]
    unfold KeysNodup at h ⊢
    rw [List.map_append]
    simp only [List.map_cons, List.map_nil]
    rw [List.nodup_append]
    refine ⟨h, List.nodup_singleton _, fun a ha hb => ?_⟩
    simp only [List.mem_singleton] at hb
    subst hb
    exact hc ((dictContains_iff_mem_keys l a).mpr ha)

theorem keys_dictRemove_mem (l : List (Int × String)) (k a : Int)
    (h : a ∈ (dictRemove l k).map Prod.fst) : a ∈ l.map Prod.fst := by
  induction l with
  | nil => simp [dictRemove] at h
  | cons p t ih =>
    by_cases hpk : (p.1 == k) = true
    · simp only [dictRemove, if_pos hpk] at h
      simp only [List.map_cons, List.mem_cons]
      exact Or.inr (ih h)
    · simp only [dictRemove, if_neg hpk, List.map_cons, List.mem_cons] at h ⊢
      rcases h with h | h
      · exact Or.inl h
      · exact Or.inr (ih h)

theorem keysNodup_dictRemove (l : List (Int × String)) (k : Int)
    (h : KeysNodup l) : KeysNodup (dictRemove l k) := by
  unfold KeysNodup at h ⊢
  induction l with
  | nil => simp [dictRemove]
  | cons p t ih =>
    simp only [List.map_cons, List.nodup_cons] at h
    by_cases hpk : (p.1 == k) = true
    · simp only [dictRemove, if_pos hpk]
      exact ih h.2
    · simp only [dictRemove, if_neg hpk, List.map_cons, List.nodup_cons]
      exact ⟨fun hx => h.1 (keys_dictRemove_mem t k p.1 hx), ih h.2⟩

/-! ## Single-field mutations (the spec's tamper model) -/

/-- A change to exactly one field of one paragraph. -/
inductive ParaFieldMut : Paragraph → Paragraph → Prop where
  | fixed (p : Paragraph) (x : String) (hx : x ≠ p.fixed_text) :
      ParaFieldMut p { p with fixed_text := x }
  | holder (p : Paragraph) (x : String) (hx : x ≠ p.placeholder) :
      ParaFieldMut p { p with placeholder := x }
  | text (p : Paragraph) (x : String) (hx : x ≠ p.text) :
      ParaFieldMut p { p with text := x }

/-- A change to exactly one field of a document: one of the five scalar
fields, or one field of one paragraph (the rest of the content list
unchanged). -/
inductive SingleFieldMut : Document → Document → Prop where
  | id (d : Document) (x : UUID) (hx : x ≠ d.id) :
      SingleFieldMut d { d with id := x }
  | parent (d : Document) (x : Option UUID) (hx : x ≠ d.parent_document_id) :
      SingleFieldMut d { d with parent_document_id := x }
  | author (d : Document) (x : Int) (hx : x ≠ d.author_id) :
      SingleFieldMut d { d with author_id := x }
  | addressee (d : Document) (x : Int) (hx : x ≠ d.addressee_id) :
      SingleFieldMut d { d with addressee_id := x }
  | created (d : Document) (x : Datetime) (hx : x ≠ d.created_at) :
      SingleFieldMut d { d with created_at := x }
  | para (d : Document) (pre post : List Paragraph) (p p' : Paragraph)
      (hc : d.content = pre ++ p :: post) (hp : ParaFieldMut p p') :
      SingleFieldMut d { d with content := pre ++ p' :: post }

theorem paraFieldMut_ne {p p' : Paragraph} (h : ParaFieldMut p p') : p' ≠ p := by
  cases h with
  | fixed x hx => intro hc; exact hx (congrArg Paragraph.fixed_text hc)
  | holder x hx => intro hc; exact hx (congrArg Paragraph.placeholder hc)
  | text x hx => intro hc; exact hx (congrArg Paragraph.text hc)

/-- `sign_document` with a loaded key, unfolded to the artifact record it
builds. -/
theorem sign_document_some (kid : Nat) (d : Document) (sid : Int) (salt : Nat)
    (now : Datetime) :
    DocumentProcessor.sign_document ⟨some kid⟩ d sid salt now = Except.ok
      { document_id := d.id
        json_version := documentToCanonicalJson d
        signator_id := sid
        public_key := pemPub (PubKey.rsa kid)
        signature := bytesToHex (rsaSign kid (documentToCanonicalJson d).data salt)
        signed_at := now } := rfl

/-! ## The claims -/

/-- C1: Sign/verify round trip — for every document, signator id and
generated key pair loaded into the processor, the artifact produced by
`sign_document` passes `verify_signature` against the unchanged document. -/
theorem claim_C1_sign_verify_roundtrip (kid : Nat) (d : Document) (sid : Int)
    (salt : Nat) (now : Datetime) (a : Signature)
    (hsign : (DocumentProcessor.generate_keys kid).sign_document d sid salt now =
      Except.ok a) :
    verify_signature d a = true := by
  rw [show DocumentProcessor.generate_keys kid = ⟨some kid⟩ from rfl] at hsign
  rw [sign_document_some] at hsign
  injection hsign with ha
  rw [← ha]
  exact verify_ok d kid salt sid now

/-- C2: Tamper detection — any single-field mutation of a signed document
(identity fields, timestamps, or any one paragraph field) makes bare
verification of the original artifact return `False`. -/
theorem claim_C2_tamper_detection (kid : Nat) (d d' : Document) (sid : Int)
    (salt : Nat) (now : Datetime) (a : Signature)
    (hd : d.Valid) (hd' : d'.Valid) (hm : SingleFieldMut d d')
    (hsign : DocumentProcessor.sign_document ⟨some kid⟩ d sid salt now =
      Except.ok a) :
    verify_signature d' a = false := by
  rw [sign_document_some] at hsign
  injection hsign with ha
  rw [← ha]
  cases hm with
  | id x hx =>
    apply verify_false_of_id_ne
    exact hx
  | parent x hx =>
    apply verify_false_of_json_ne
    intro hjson
    obtain ⟨i, par, au, ad, cr, ct⟩ := d
    have hc : canonChars ⟨i, x, au, ad, cr, ct⟩ = canonChars ⟨i, par, au, ad, cr, ct⟩ :=
      congrArg String.data hjson
    simp only [canonChars, List.append_assoc] at hc
    have h1 := List.append_cancel_left hc
    have h2 := List.append_cancel_left h1
    have h3 := List.append_cancel_left h2
    have h4 := List.append_cancel_right h3
    have hxv : ∀ u ∈ x, u.Valid := hd'.2.1
    have hpv : ∀ u ∈ par, u.Valid := hd.2.1
    exact hx (parentChars_injective hxv hpv h4)
  | author x hx =>
    apply verify_false_of_json_ne
    intro hjson
    obtain ⟨i, par, au, ad, cr, ct⟩ := d
    have hc : canonChars ⟨i, par, x, ad, cr, ct⟩ = canonChars ⟨i, par, au, ad, cr, ct⟩ :=
      congrArg String.data hjson
    simp only [canonChars, List.append_assoc] at hc
    have h1 := List.append_cancel_left hc
    have h2 := List.append_cancel_left h1
    have h3 := List.append_cancel_left h2
    have h4 := List.append_cancel_left h3
    have h5 := List.append_cancel_left h4
    have h6 := List.append_cancel_right h5
    exact hx (intRepr_injective h6)
  | addressee x hx =>
    apply verify_false_of_json_ne
    intro hjson
    obtain ⟨i, par, au, ad, cr, ct⟩ := d
    have hc : canonChars ⟨i, par, au, x, cr, ct⟩ = canonChars ⟨i, par, au, ad, cr, ct⟩ :=
      congrArg String.data hjson
    simp only [canonChars, List.append_assoc] at hc
    have h1 := List.append_cancel_left hc
    have h2 := List.append_cancel_left h1
    have h3 := List.append_cancel_left h2
    have h4 := List.append_cancel_left h3
    have h5 := List.append_cancel_left h4
    have h6 := List.append_cancel_left h5
    have h7 := List.append_cancel_left h6
    have h8 := List.append_cancel_right h7
    exact hx (intRepr_injective h8)
  | created x hx =>
    apply verify_false_of_json_ne
    intro hjson
    obtain ⟨i, par, au, ad, cr, ct⟩ := d
    have hc : canonChars ⟨i, par, au, ad, x, ct⟩ = canonChars ⟨i, par, au, ad, cr, ct⟩ :=
      congrArg String.data hjson
    simp only [canonChars, List.append_assoc] at hc
    have h1 := List.append_cancel_left hc
    have h2 := List.append_cancel_left h1
    have h3 := List.append_cancel_left h2
    have h4 := List.append_cancel_left h3
    have h5 := List.append_cancel_left h4
    have h6 := List.append_cancel_left h5
    have h7 := List.append_cancel_left h6
    have h8 := List.append_cancel_left h7
    have h9 := List.append_cancel_left h8
    have h10 := List.append_cancel_right h9
    have hxv : x.Valid := hd'.2.2
    have hcv : cr.Valid := hd.2.2
    exact hx (dtChars_injective hxv hcv h10)
  | para pre post p p' hcont hp =>
    apply verify_false_of_json_ne
    intro hjson
    obtain ⟨i, par, au, ad, cr, ct⟩ := d
    have hct : ct = pre ++ p :: post := hcont
    subst hct
    have hc : canonChars ⟨i, par, au, ad, cr, pre ++ p' :: post⟩ =
        canonChars ⟨i, par, au, ad, cr, pre ++ p :: post⟩ :=
      congrArg String.data hjson
    simp only [canonChars, List.append_assoc] at hc
    have h1 := List.append_cancel_left hc
    have h2 := List.append_cancel_left h1
    have h3 := List.append_cancel_left h2
    have h4 := List.append_cancel_left h3
    have h5 := List.append_cancel_left h4
    have h6 := List.append_cancel_left h5
    have h7 := List.append_cancel_left h6
    have h8 := List.append_cancel_left h7
    have h9 := List.append_cancel_left h8
    have h10 := List.append_cancel_left h9
    have h11 := List.append_cancel_left h10
    have h12 := List.append_cancel_right h11
    rw [contentChars_decomp, contentChars_decomp] at h12
    have h13 := List.append_cancel_left h12
    have h14 := List.append_cancel_right h13
    exact paraFieldMut_ne hp (paraJson_injective h14)

/-- C3: Fail-closed verification — `verify_signature` is a total boolean
function: a raised exception anywhere in the `try` body yields `False`, and
in particular a malformed/non-PEM public key, a document-id mismatch, an
empty signature string, a non-hex signature string, and a public key of a
different asymmetric scheme all yield `False`. -/
theorem claim_C3_fail_closed (d : Document) (a : Signature) :
    ((∃ e, verifySignatureE d a = Except.error e) → verify_signature d a = false)
    ∧ ((∃ e, loadPemPublicKeyE a.public_key = Except.error e) →
        verify_signature d a = false)
    ∧ (d.id ≠ a.document_id → verify_signature d a = false)
    ∧ (a.signature = "" → verify_signature d a = false)
    ∧ ((∃ e, fromHexE a.signature = Except.error e) → verify_signature d a = false)
    ∧ ((∃ kid, parsePemChars a.public_key.data = some (PubKey.ed25519 kid)) →
        verify_signature d a = false) := by
  refine ⟨?_, ?_, ?_, ?_, ?_, ?_⟩
  · rintro ⟨e, he⟩
    unfold verify_signature
    rw [he]
  · rintro ⟨e, he⟩
    unfold verify_signature verifySignatureE
    by_cases h1 : d.id ≠ a.document_id
    · rw [if_pos h1]
    · rw [if_neg h1, he]
      rfl
  · intro h
    exact verify_false_of_id_ne d a h
  · intro h
    by_cases hjson : documentToCanonicalJson d ≠ a.json_version
    · exact verify_false_of_json_ne d a hjson
    · push_neg at hjson
      unfold verify_signature verifySignatureE
      by_cases h1 : d.id ≠ a.document_id
      · rw [if_pos h1]
      · rw [if_neg h1]
        cases hpem : loadPemPublicKeyE a.public_key with
        | error e => rfl
        | ok k =>
          simp only [tryBind]
          rw [if_neg (by simp [hjson])]
          have hhex : fromHexE a.signature = Except.ok [] := by
            rw [h]; rfl
          rw [hhex]
          simp only [tryBind]
          have hmsgne : a.json_version.data ≠ [] := by
            rw [← hjson]
            exact canonChars_ne_nil d
          cases k with
          | rsa kid =>
            have hver : rsaVerifyE (PubKey.rsa kid) [] a.json_version.data =
                Except.error PyErr.invalidSignature := by
              simp only [rsaVerifyE]
              rw [rsaSigMatches_nil hmsgne]
              rfl
            rw [hver]
          | ed25519 kid => rfl
  · rintro ⟨e, he⟩
    unfold verify_signature verifySignatureE
    by_cases h1 : d.id ≠ a.document_id
    · rw [if_pos h1]
    · rw [if_neg h1]
      cases hpem : loadPemPublicKeyE a.public_key with
      | error e2 => rfl
      | ok k =>
        simp only [tryBind]
        by_cases hjson : documentToCanonicalJson d ≠ a.json_version
        · rw [if_pos hjson]
        · rw [if_neg hjson, he]
  · rintro ⟨kid, hk⟩
    unfold verify_signature verifySignatureE
    by_cases h1 : d.id ≠ a.document_id
    · rw [if_pos h1]
    · rw [if_neg h1]
      have hpem : loadPemPublicKeyE a.public_key = Except.ok (PubKey.ed25519 kid) := by
        unfold loadPemPublicKeyE
        rw [hk]
      rw [hpem]
      simp only [tryBind]
      by_cases hjson : documentToCanonicalJson d ≠ a.json_version
      · rw [if_pos hjson]
      · rw [if_neg hjson]
        cases hhex : fromHexE a.signature with
        | error e => rfl
        | ok bs => rfl

/-- An untrusted signer id alone forces registry-backed verification to
`False`. -/
theorem trusted_false_of_absent (svc : SignedDocumentsService) (d : Document)
    (a : Signature) (h : dictContains svc.trusted_keys a.signator_id = false) :
    svc.verify_document_signature d a = false := by
  unfold SignedDocumentsService.verify_document_signature verifyDocumentSignatureE
  rw [if_pos (by simp [h])]

/-- When registry-backed verification succeeds, the signer was trusted, the
registered key is byte-identical to the artifact's key, and all bare
verification checks pass as well. -/
theorem trusted_true_parts (svc : SignedDocumentsService) (d : Document)
    (a : Signature) (h : svc.verify_document_signature d a = true) :
    dictContains svc.trusted_keys a.signator_id = true ∧
    dictGet svc.trusted_keys a.signator_id = some a.public_key ∧
    verify_signature d a = true := by
  have hE := (verify_trusted_true_iff svc d a).mp h
  unfold verifyDocumentSignatureE at hE
  by_cases hcont : dictContains svc.trusted_keys a.signator_id = true
  case neg =>
    rw [if_pos (by simp [Bool.not_eq_true] at hcont; simp [hcont])] at hE
    exact absurd hE (by simp)
  rw [if_neg (by simp [hcont])] at hE
  by_cases hid : d.id ≠ a.document_id
  case pos =>
    rw [if_pos hid] at hE
    exact absurd hE (by simp)
  rw [if_neg hid] at hE
  cases hget : dictGet svc.trusted_keys a.signator_id with
  | none =>
    rw [hget] at hE
    simp [getItem, tryBind] at hE
  | some trusted =>
    rw [hget] at hE
    simp only [getItem, tryBind] at hE
    by_cases hpk : a.public_key ≠ trusted
    case pos =>
      rw [if_pos hpk] at hE
      exact absurd hE (by simp)
    rw [if_neg hpk] at hE
    push_neg at hpk
    cases hpem : loadPemPublicKeyE trusted with
    | error e =>
      rw [hpem] at hE
      simp [tryBind] at hE
    | ok pubk =>
      rw [hpem] at hE
      simp only [tryBind] at hE
      by_cases hjson : documentToCanonicalJson d ≠ a.json_version
      case pos =>
        rw [if_pos hjson] at hE
        exact absurd hE (by simp)
      rw [if_neg hjson] at hE
      cases hhex : fromHexE a.signature with
      | error e =>
        rw [hhex] at hE
        simp [tryBind] at hE
      | ok bs =>
        rw [hhex] at hE
        simp only [tryBind] at hE
        cases hver : rsaVerifyE pubk bs a.json_version.data with
        | error e =>
          rw [hver] at hE
          simp [tryBind] at hE
        | ok u =>
          refine ⟨hcont, by rw [hpk], ?_⟩
          unfold verify_signature verifySignatureE
          rw [if_neg hid, hpk, hpem]
          simp only [tryBind]
          rw [if_neg hjson, hhex]
          simp only [tryBind]
          rw [hver]

/-- C4: Registry gating — registry-backed verification is `False` whenever
the claimed signer id is absent from the registry; it is `true` only when,
in addition to the bare checks, the registered key is byte-identical to the
artifact's embedded key; and a different registered key (even one that
parses to an equivalent key object) forces `False`. -/
theorem claim_C4_registry_gating (svc : SignedDocumentsService) (d : Document)
    (a : Signature) :
    (dictContains svc.trusted_keys a.signator_id = false →
      svc.verify_document_signature d a = false)
    ∧ (svc.verify_document_signature d a = true →
        dictContains svc.trusted_keys a.signator_id = true ∧
        dictGet svc.trusted_keys a.signator_id = some a.public_key ∧
        verify_signature d a = true)
    ∧ (∀ k, dictGet svc.trusted_keys a.signator_id = some k →
        k ≠ a.public_key → svc.verify_document_signature d a = false) := by
  refine ⟨trusted_false_of_absent svc d a, trusted_true_parts svc d a, ?_⟩
  intro k hk hne
  unfold SignedDocumentsService.verify_document_signature verifyDocumentSignatureE
  by_cases hcont : dictContains svc.trusted_keys a.signator_id = true
  case neg =>
    rw [if_pos (by simp [Bool.not_eq_true] at hcont; simp [hcont])]
  rw [if_neg (by simp [hcont])]
  by_cases hid : d.id ≠ a.document_id
  case pos => rw [if_pos hid]
  rw [if_neg hid, hk]
  simp only [getItem, tryBind]
  rw [if_pos (fun hc => hne hc.symm)]

/-- C5: Registry removal — `remove_trusted_key` returns `True` and deletes
the entry when present, returns `False` leaving the registry unchanged when
absent, and revokes: a previously `true` registry-backed verification
becomes `False` after removing the artifact's signer. -/
theorem claim_C5_registry_removal (svc : SignedDocumentsService) (sid : Int)
    (d : Document) (a : Signature) :
    (dictContains svc.trusted_keys sid = true →
      (svc.remove_trusted_key sid).1 = true ∧
      dictGet (svc.remove_trusted_key sid).2.trusted_keys sid = none)
    ∧ (dictContains svc.trusted_keys sid = false →
        svc.remove_trusted_key sid = (false, svc))
    ∧ (svc.verify_document_signature d a = true →
        ((svc.remove_trusted_key a.signator_id).2.verify_document_signature d a) =
          false) := by
  refine ⟨?_, ?_, ?_⟩
  · intro h
    unfold SignedDocumentsService.remove_trusted_key
    rw [if_pos (by simp [h])]
    exact ⟨rfl, dictGet_dictRemove svc.trusted_keys sid⟩
  · intro h
    unfold SignedDocumentsService.remove_trusted_key
    rw [if_neg (by simp [h])]
  · intro h
    have hcont := (trusted_true_parts svc d a h).1
    unfold SignedDocumentsService.remove_trusted_key
    rw [if_pos (by simp [hcont])]
    exact trusted_false_of_absent _ d a
      (dictContains_dictRemove svc.trusted_keys a.signator_id)

/-- C6: Persistence idempotence — saving a (document, signature) pair with
the artifact store and loading it back restores both values exactly, so the
bare-verification outcome is unchanged. -/
theorem claim_C6_persistence_idempotence (d : Document) (a : Signature)
    (hd : d.Valid) (hs : a.Valid) :
    load_document_signature_pair (save_document_signature_pair d a) =
      Except.ok (d, a)
    ∧ (∀ d' a', load_document_signature_pair (save_document_signature_pair d a) =
        Except.ok (d', a') → verify_signature d' a' = verify_signature d a) := by
  have h := load_save_pair d a hd hs
  refine ⟨h, ?_⟩
  intro d' a' h2
  rw [h] at h2
  injection h2 with h3
  injection h3 with e1 e2
  rw [← e1, ← e2]

/-- C7: Signing precondition — `sign_document` fails with the no-key
`ValueError` exactly when no private key is loaded, and succeeds (returning
an artifact) for every document whenever any private key is loaded. -/
theorem claim_C7_sign_precondition (p : DocumentProcessor) (d : Document)
    (sid : Int) (salt : Nat) (now : Datetime) :
    (p.private_key = none →
      p.sign_document d sid salt now =
        Except.error (PyErr.valueError "No private key loaded"))
    ∧ (∀ kid, p.private_key = some kid →
        ∃ a, p.sign_document d sid salt now = Except.ok a) := by
  obtain ⟨pk⟩ := p
  constructor
  · intro h
    have hp : pk = none := h
    subst hp
    rfl
  · intro kid h
    have hp : pk = some kid := h
    subst hp
    exact ⟨_, rfl⟩

/-- C8: Non-interference of unsigned artifact fields — bare verification
never reads `signator_id` or `signed_at`, so replacing them with any other
values leaves the result of `verify_signature` unchanged. -/
theorem claim_C8_unsigned_fields_no_interference (d : Document) (a : Signature)
    (sid : Int) (t : Datetime) :
    verify_signature d { a with signator_id := sid, signed_at := t } =
      verify_signature d a := rfl

/-- C9: Registry add contract — `add_trusted_key` raises a `ValueError`
(propagated, registry unchanged) when the PEM does not parse; on a valid
PEM it inserts the mapping, overwriting any existing key for that id and
leaving other ids untouched, and it preserves the one-key-per-signer
invariant. -/
theorem claim_C9_add_contract (svc : SignedDocumentsService) (sid : Int)
    (pem : String) :
    (parsePemChars pem.data = none →
      svc.add_trusted_key sid pem =
        Except.error (PyErr.valueError "Invalid public key format"))
    ∧ (∀ k, parsePemChars pem.data = some k →
        svc.add_trusted_key sid pem =
          Except.ok ⟨dictSet svc.trusted_keys sid pem⟩ ∧
        dictGet (dictSet svc.trusted_keys sid pem) sid = some pem ∧
        (∀ sid2, sid2 ≠ sid →
          dictGet (dictSet svc.trusted_keys sid pem) sid2 =
            dictGet svc.trusted_keys sid2))
    ∧ (KeysNodup svc.trusted_keys → ∀ svc',
        svc.add_trusted_key sid pem = Except.ok svc' →
        KeysNodup svc'.trusted_keys) := by
  refine ⟨?_, ?_, ?_⟩
  · intro h
    unfold SignedDocumentsService.add_trusted_key
    rw [h]
  · intro k h
    unfold SignedDocumentsService.add_trusted_key
    rw [h]
    exact ⟨rfl, dictGet_dictSet_self svc.trusted_keys sid pem,
      fun sid2 hne => dictGet_dictSet_other svc.trusted_keys sid sid2 pem hne⟩
  · intro hnd svc' h
    unfold SignedDocumentsService.add_trusted_key at h
    cases hp : parsePemChars pem.data with
    | none =>
      rw [hp] at h
      simp at h
    | some k =>
      rw [hp] at h
      injection h with h2
      rw [← h2]
      exact keysNodup_dictSet svc.trusted_keys sid pem hnd

/-- C10: Missing key file at construction — initializing a processor with a
path that names no file raises nothing and leaves no private key loaded,
identically to giving no path; the failure surfaces only when signing or a
public-key export is attempted. -/
theorem claim_C10_init_missing_file (path : String) (fs : String → Option Nat)
    (d : Document) (sid : Int) (salt : Nat) (now : Datetime)
    (h : fs path = none) :
    DocumentProcessor.init (some path) fs = ⟨none⟩
    ∧ DocumentProcessor.init (some path) fs = DocumentProcessor.init none fs
    ∧ (DocumentProcessor.init (some path) fs).sign_document d sid salt now =
        Except.error (PyErr.valueError "No private key loaded")
    ∧ (DocumentProcessor.init (some path) fs).get_public_key_pem =
        Except.error (PyErr.valueError "No private key available") := by
  have h1 : DocumentProcessor.init (some path) fs = ⟨none⟩ := by
    simp only [DocumentProcessor.init]
    rw [h]
  exact ⟨h1, by rw [h1]; rfl, by rw [h1]; rfl, by rw [h1]; rfl⟩

/-! ## Concrete instances (the spec's example scenario: one paragraph
`("Dear", "name", "John Doe")`, signator id 42) -/

/-- A concrete naive datetime. -/
def t0 : Datetime := ⟨2025, 1, 2, 3, 4, 5, 0⟩

/-- The spec's example paragraph. -/
def para0 : Paragraph := ⟨"Dear", "name", "John Doe"⟩

/-- A concrete document. -/
def doc0 : Document := ⟨⟨1⟩, none, 1, 2, t0, [para0]⟩

/-- The artifact produced by signing `doc0` with key pair 1, signator 42,
salt 5. -/
def sig0 : Signature :=
  ⟨doc0.id, documentToCanonicalJson doc0, 42, pemPub (PubKey.rsa 1),
    bytesToHex (rsaSign 1 (documentToCanonicalJson doc0).data 5), t0⟩

/-- A registry trusting signer 42 with key pair 1's public key. -/
def svc0 : SignedDocumentsService := ⟨[(42, pemPub (PubKey.rsa 1))]⟩

/-- Witness for C1 at the concrete instance. -/
theorem claim_C1_witness : verify_signature doc0 sig0 = true :=
  claim_C1_sign_verify_roundtrip 1 doc0 42 5 t0 sig0 rfl

/-- The concrete single-field mutation of `doc0` (author id 1 → 3). -/
def doc0mut : Document := { doc0 with author_id := 3 }

/-- Witness for C2 at the concrete instance. -/
theorem claim_C2_witness : verify_signature doc0mut sig0 = false :=
  claim_C2_tamper_detection 1 doc0 doc0mut 42 5 t0 sig0 (by decide) (by decide)
    (SingleFieldMut.author doc0 3 (by decide)) rfl

/-- Witness for C3 at concrete malformed artifacts. -/
theorem claim_C3_witness :
    verify_signature doc0 { sig0 with signature := "zz" } = false
    ∧ verify_signature doc0 { sig0 with public_key := "not a pem" } = false
    ∧ verify_signature doc0 { sig0 with document_id := ⟨2⟩ } = false
    ∧ verify_signature doc0 { sig0 with signature := "" } = false
    ∧ verify_signature doc0
        { sig0 with public_key := pemPub (PubKey.ed25519 7) } = false :=
  ⟨(claim_C3_fail_closed doc0 _).2.2.2.2.1
      ⟨PyErr.valueError "non-hexadecimal number found in fromhex() arg", rfl⟩,
   (claim_C3_fail_closed doc0 _).2.1
      ⟨PyErr.valueError "Could not deserialize key data", rfl⟩,
   (claim_C3_fail_closed doc0 _).2.2.1 (by decide),
   (claim_C3_fail_closed doc0 _).2.2.2.1 rfl,
   (claim_C3_fail_closed doc0 _).2.2.2.2.2 ⟨7, rfl⟩⟩

set_option maxRecDepth 40000 in
/-- Witness for C4 at concrete registries. -/
theorem claim_C4_witness :
    SignedDocumentsService.verify_document_signature ⟨[]⟩ doc0 sig0 = false
    ∧ (dictContains svc0.trusted_keys sig0.signator_id = true
       ∧ dictGet svc0.trusted_keys sig0.signator_id = some sig0.public_key
       ∧ verify_signature doc0 sig0 = true)
    ∧ SignedDocumentsService.verify_document_signature
        ⟨[(42, pemPub (PubKey.rsa 2))]⟩ doc0 sig0 = false :=
  ⟨(claim_C4_registry_gating ⟨[]⟩ doc0 sig0).1 rfl,
   (claim_C4_registry_gating svc0 doc0 sig0).2.1 rfl,
   (claim_C4_registry_gating ⟨[(42, pemPub (PubKey.rsa 2))]⟩ doc0 sig0).2.2
     (pemPub (PubKey.rsa 2)) rfl (by decide)⟩

set_option maxRecDepth 40000 in
/-- Witness for C5 at the concrete registry. -/
theorem claim_C5_witness :
    ((svc0.remove_trusted_key 42).1 = true
      ∧ dictGet (svc0.remove_trusted_key 42).2.trusted_keys 42 = none)
    ∧ svc0.remove_trusted_key 7 = (false, svc0)
    ∧ ((svc0.remove_trusted_key sig0.signator_id).2.verify_document_signature
        doc0 sig0) = false :=
  ⟨(claim_C5_registry_removal svc0 42 doc0 sig0).1 rfl,
   (claim_C5_registry_removal svc0 7 doc0 sig0).2.1 rfl,
   (claim_C5_registry_removal svc0 42 doc0 sig0).2.2 rfl⟩

/-- Witness for C6 at the concrete pair. -/
theorem claim_C6_witness :
    load_document_signature_pair (save_document_signature_pair doc0 sig0) =
      Except.ok (doc0, sig0) :=
  (claim_C6_persistence_idempotence doc0 sig0 (by decide) (by decide)).1

/-- Witness for C7 with and without a loaded key. -/
theorem claim_C7_witness :
    DocumentProcessor.sign_document ⟨none⟩ doc0 42 5 t0 =
      Except.error (PyErr.valueError "No private key loaded")
    ∧ ∃ a, DocumentProcessor.sign_document ⟨some 1⟩ doc0 42 5 t0 = Except.ok a :=
  ⟨(claim_C7_sign_precondition ⟨none⟩ doc0 42 5 t0).1 rfl,
   (claim_C7_sign_precondition ⟨some 1⟩ doc0 42 5 t0).2 1 rfl⟩

/-- Witness for C9 at concrete PEM strings. -/
theorem claim_C9_witness :
    SignedDocumentsService.add_trusted_key ⟨[]⟩ 42 "garbage" =
      Except.error (PyErr.valueError "Invalid public key format")
    ∧ SignedDocumentsService.add_trusted_key ⟨[]⟩ 42 (pemPub (PubKey.rsa 1)) =
        Except.ok ⟨dictSet [] 42 (pemPub (PubKey.rsa 1))⟩
    ∧ KeysNodup (dictSet svc0.trusted_keys 42 (pemPub (PubKey.rsa 1))) :=
  ⟨(claim_C9_add_contract ⟨[]⟩ 42 "garbage").1 rfl,
   ((claim_C9_add_contract ⟨[]⟩ 42 (pemPub (PubKey.rsa 1))).2.1
     (PubKey.rsa 1) rfl).1,
   (claim_C9_add_contract svc0 42 (pemPub (PubKey.rsa 1))).2.2 (by decide)
     ⟨dictSet svc0.trusted_keys 42 (pemPub (PubKey.rsa 1))⟩ rfl⟩

/-- Witness for C10 at a concrete missing path. -/
theorem claim_C10_witness :
    DocumentProcessor.init (some "missing.pem") (fun _ => none) = ⟨none⟩
    ∧ DocumentProcessor.init (some "missing.pem") (fun _ => none) =
        DocumentProcessor.init none (fun _ => none)
    ∧ (DocumentProcessor.init (some "missing.pem")
        (fun _ => none)).sign_document doc0 42 5 t0 =
        Except.error (PyErr.valueError "No private key loaded")
    ∧ (DocumentProcessor.init (some "missing.pem")
        (fun _ => none)).get_public_key_pem =
        Except.error (PyErr.valueError "No private key available") :=
  claim_C10_init_missing_file "missing.pem" (fun _ => none) doc0 42 5 t0 rfl

end Vibe2025
